import Mathlib

/-!
Verification development for the neo4j-japanese loader.

The repository converts the JMdict XML corpus into a Neo4j property graph.
We shallowly embed the relevant code:

* `jmdict_parser.py` (superseded single-file iteration): `is_kana`,
  `parse_xref`, and the kanji-reading relationship transaction.
* `src/neo4japanese/models.py`: the typed record model (`Kanji`, `Reading`,
  `Sense`, `Gloss`, `Lsource`, `Sentence`, `Example`, `Xref`, `Entry`).
* `src/neo4japanese/parsers/jmdict.py`: the entity normalizer
  (`get_kanji`, `get_readings`, `get_lsources`, `get_gloss`, `get_examples`,
  `get_senses`, `get_entry`).
* `src/neo4japanese/transactions.py`: the batch upsert engine and the
  cross-reference resolver, embedded as deterministic transformers of an
  explicit `GraphState`.  Cypher `MERGE` is embedded as insert-if-absent on
  the merge key of the pattern; `ON CREATE SET` attributes are recorded only
  at insertion time; `UNWIND` of a list is a fold over the list (an empty
  list produces no rows); a `MATCH` that finds nothing kills the row.
* `src/neo4japanese/__main__.py`: `grouper` and the batch pipeline `run`.

Python strings are embedded as `List Char` with code-point comparisons,
matching CPython semantics for `<=` on single characters.
-/

namespace N4J

/-- Python strings are modelled as lists of characters. -/
abbrev Str := List Char

/-- First code point of the hiragana block, `HIRAGANA[0]` in
`jmdict_parser.py`. -/
def hiraganaLo : Char := Char.ofNat 0x3040

/-- Last code point of the hiragana block. -/
def hiraganaHi : Char := Char.ofNat 0x309f

/-- First code point of the katakana block. -/
def katakanaLo : Char := Char.ofNat 0x30a0

/-- Last code point of the katakana block. -/
def katakanaHi : Char := Char.ofNat 0x30ff

/-- First code point of the katakana phonetic extensions block. -/
def katakanaExtLo : Char := Char.ofNat 0x31f0

/-- Last code point of the katakana phonetic extensions block. -/
def katakanaExtHi : Char := Char.ofNat 0x31ff

/-- `KANA_DOT` from `jmdict_parser.py`: the katakana middle dot used as the
separator of cross-reference specs. -/
def kanaDot : Char := Char.ofNat 0x30fb

/-- One character lies in one of the three kana ranges checked by the inner
loop of `is_kana`. -/
def isKanaChar (c : Char) : Bool :=
  (hiraganaLo ≤ c && c ≤ hiraganaHi) ||
  (katakanaLo ≤ c && c ≤ katakanaHi) ||
  (katakanaExtLo ≤ c && c ≤ katakanaExtHi)

/-- `is_kana` from `jmdict_parser.py`: `True` iff every character of the
string lies in the kana ranges.  The Python loop returns `False` at the
first character outside every range and `True` when the loop finishes, so
the empty string yields `True`. -/
def is_kana (s : Str) : Bool :=
  s.all isKanaChar

/-- One character counts as a digit for Python `str.isdigit`.  We model the
decimal digits and their fullwidth forms, the repertoire relevant to the
JMdict corpus; `str.isdigit` accepts further Unicode digit characters that
never meet the kana or separator characters handled here. -/
def isPyDigitChar (c : Char) : Bool :=
  ('0' ≤ c && c ≤ '9') ||
  (Char.ofNat 0xff10 ≤ c && c ≤ Char.ofNat 0xff19)

/-- Python `str.isdigit`: non-empty and every character a digit. -/
def pyIsDigit (s : Str) : Bool :=
  !s.isEmpty && s.all isPyDigitChar

/-- Numeric value of a digit character accepted by `isPyDigitChar`. -/
def pyDigitVal (c : Char) : Nat :=
  if '0' ≤ c && c ≤ '9' then c.toNat - '0'.toNat
  else c.toNat - 0xff10

/-- Python `int` on a string of digit characters (the only shape on which
`parse_xref` calls it, guarded by `str.isdigit`). -/
def pyDecNat (s : Str) : Nat :=
  s.foldl (fun a c => 10 * a + pyDigitVal c) 0

/-- Python `str.split(sep)` for a one-character separator: the result is
never empty, and empty fields are kept, so a leading, trailing, or doubled
separator yields empty tokens. -/
def pySplit (sep : Char) : Str → List Str
  | [] => [[]]
  | c :: cs =>
    match pySplit sep cs with
    | [] => [[]]
    | g :: gs => if c = sep then [] :: g :: gs else (c :: g) :: gs

/-- Result record of `parse_xref`: the Python function builds a dict with
up to three keys, `keb`, `reb` and `sense`. -/
structure XrefDict where
  keb : Option Str := none
  reb : Option Str := none
  sense : Option Nat := none
deriving DecidableEq, Repr

/-- One iteration of the token loop of `parse_xref`: an all-digit token
sets `sense`, else an all-kana token sets `reb`, else the token sets
`keb`.  A later token of the same category overwrites the earlier value. -/
def parseXrefStep (acc : XrefDict) (tok : Str) : XrefDict :=
  if pyIsDigit tok then { acc with sense := some (pyDecNat tok) }
  else if is_kana tok then { acc with reb := some tok }
  else { acc with keb := some tok }

/-- `parse_xref` from `jmdict_parser.py`: split the spec on the kana middle
dot and classify each token in order. -/
def parse_xref (xref : Str) : XrefDict :=
  (pySplit kanaDot xref).foldl parseXrefStep {}

/-- A token classified as a sense rank by `parse_xref`. -/
def isRankTok (t : Str) : Bool := pyIsDigit t

/-- A token classified as a reading by `parse_xref`: not all digits, all
kana. -/
def isRebTok (t : Str) : Bool := !pyIsDigit t && is_kana t

/-- A token classified as a headword by `parse_xref`: not all digits, not
all kana. -/
def isKebTok (t : Str) : Bool := !pyIsDigit t && !is_kana t

/-- The kanji targets selected by `_merge_kanji_reading_relationships` in
the superseded `jmdict_parser.py`: the Cypher filter
`k.keb = coalesce($re_restr, k.keb)` keeps every kanji of the entry when
`re_restr` is `None` and only the named kanji otherwise (`re_restr` there is
a single optional string). -/
def legacyKanjiReadingTargets (kebs : List Str) (re_restr : Option Str) : List Str :=
  kebs.filter (fun keb => keb == re_restr.getD keb)

/-! ## The typed record model (`src/neo4japanese/models.py`)

`ent_seq` and `ex_srce` are integer fields coerced by pydantic from the XML
text; JMdict sequence and Tatoeba ids are decimal numerals, so we carry them
as `Nat`. -/

/-- Model for the Kanji node. -/
structure Kanji where
  keb : Str
  ke_inf : List Str
  ke_pri : List Str
deriving DecidableEq, Repr

/-- Model for the Reading node. -/
structure Reading where
  reb : Str
  re_nokanji : Bool
  re_restr : List Str
  re_inf : List Str
  re_pri : List Str
deriving DecidableEq, Repr

/-- Model for the Language node. -/
structure Language where
  name : Str
deriving DecidableEq, Repr

/-- Model for the Sense to Language relationship.  The Python field named
after the `ls_type="partial"` attribute is called `isPartial` here. -/
structure Lsource where
  lang : Language
  phrase : Option Str
  isPartial : Bool
  wasei : Bool
deriving DecidableEq, Repr

/-- Model for the Gloss node. -/
structure Gloss where
  defn : List Str
  expl : List Str
  fig : List Str
  lit : List Str
  tm : List Str
deriving DecidableEq, Repr

/-- Enumeration of recognized example source types: only the Tatoeba tag. -/
inductive SourceType where
  | tat
deriving DecidableEq, Repr

/-- Model for the Sentence node. -/
structure Sentence where
  exsrc_type : SourceType
  ex_srce : Nat
  eng : Str
  jpn : Str
deriving DecidableEq, Repr

/-- Model for the Sense to Sentence relationship. -/
structure Example where
  sentence : Sentence
  ex_text : Str
deriving DecidableEq, Repr

/-- Enumeration of recognized cross-reference tags. -/
inductive XrefTag where
  | xref
  | ant
deriving DecidableEq, Repr

/-- Model for cross-references. -/
structure Xref where
  tag : XrefTag
  keb : Option Str
  reb : Option Str
  rank : Option Nat
deriving DecidableEq, Repr

/-- Model for the Sense node. -/
structure Sense where
  stagk : List Str
  stagr : List Str
  pos : List Str
  xref : List Xref
  ant : List Xref
  field : List Str
  misc : List Str
  s_inf : List Str
  lsource : List Lsource
  dial : List Str
  gloss : Option Gloss
  example_ : List Example
deriving DecidableEq, Repr

/-- Model for the Entry node. -/
structure Entry where
  ent_seq : Nat
  k_ele : List Kanji
  r_ele : List Reading
  sense : List Sense
deriving DecidableEq, Repr

/-! ## The sense rank machinery

`merge_and_return_senses_for_entries` builds
`apoc.map.setLists({}, toStringList(range(1, size(entry.sense))), entry.sense)`
and recovers each rank with `toInteger(key)`.  Cypher `range(1, n)` is the
inclusive list `[1, …, n]`; `apoc.map.setLists` pairs the i-th key with the
i-th value (the keys here are distinct), and iterating `keys(map)` preserves
that pairing.  We embed the decimal round trip through strings exactly. -/

/-- Decimal numeral, most significant digit first, with a fuel argument
bounding the number of digits (structural recursion keeps the definition
computable inside the kernel). -/
def natToStrAux : Nat → Nat → Str
  | 0, _ => []
  | fuel + 1, n =>
    if n < 10 then [Char.ofNat (48 + n)]
    else natToStrAux fuel (n / 10) ++ [Char.ofNat (48 + n % 10)]

/-- Decimal numeral of a natural number, most significant digit first
(Cypher `toString` on a non-negative integer): `n + 1` fuel always
suffices. -/
def natToStr (n : Nat) : Str :=
  natToStrAux (n + 1) n

/-- Cypher `toInteger` on a decimal numeral. -/
def strToNat (s : Str) : Nat :=
  s.foldl (fun a c => 10 * a + (c.toNat - 48)) 0

/-- Cypher `range(a, b)`: the inclusive integer range. -/
def cypherRange (a b : Nat) : List Nat :=
  List.range' a (b + 1 - a)

/-- The (rank, sense) rows produced by the map machinery of the senses and
cross-reference transactions: keys `toStringList(range(1, size(senses)))`
paired with the senses, each key read back with `toInteger`. -/
def senseRankPairs (senses : List Sense) : List (Nat × Sense) :=
  (((cypherRange 1 senses.length).map natToStr).zip senses).map
    (fun p => (strToNat p.1, p.2))

/-! ## The graph store state

The Neo4j database is embedded as lists of node and relationship records.
Each `MERGE` pattern of `transactions.py` determines a merge key:

* `MERGE (n:Entry {ent_seq})` keys Entry nodes on `ent_seq`;
* `MERGE (e)-[:HAS_KANJI]->(k:Kanji {keb})` with `e` bound matches the whole
  pattern from `e`, so a Kanji node (together with its `HAS_KANJI` edge) is
  keyed on `(ent_seq, keb)`; likewise Reading on `(ent_seq, reb)` and Sense
  (via `HAS_SENSE {rank}`) on `(ent_seq, rank)`;
* `MERGE (s)-[:HAS_GLOSS]->(g:Gloss)` keys the Gloss node on its sense;
* `MERGE (l:Language {name})` and `MERGE (e:Sentence {exsrc_type, ex_srce})`
  are corpus-global keys;
* relationship merges between bound nodes are keyed on the endpoint keys
  (plus `antonym` for `REFERENCES {antonym}` and nothing else).

Each record stores the `ON CREATE SET` attributes written when the key was
first inserted; a later merge of the same key leaves the record unchanged.
Because the Kanji, Reading, Sense and Gloss nodes are created together with
their containment edge, one record stands for the node and that edge. -/

/-- A Kanji node together with its `HAS_KANJI` edge. -/
structure KanjiNode where
  ent_seq : Nat
  keb : Str
  ke_inf : List Str
  ke_pri : List Str
deriving DecidableEq, Repr

/-- A Reading node together with its `HAS_READING` edge.  The node label
written by the `MERGE` is recorded explicitly because the cross-reference
resolver matches reading nodes by a label string of its own. -/
structure ReadingNode where
  ent_seq : Nat
  label : Str
  reb : Str
  re_nokanji : Bool
  re_inf : List Str
  re_pri : List Str
deriving DecidableEq, Repr

/-- An `IS_READ` edge from a Kanji node to a Reading node of one entry. -/
structure IsReadEdge where
  ent_seq : Nat
  keb : Str
  reb : Str
deriving DecidableEq, Repr

/-- A Sense node together with its `HAS_SENSE {rank}` edge. -/
structure SenseNode where
  ent_seq : Nat
  rank : Nat
  pos : List Str
  field : List Str
  misc : List Str
  s_inf : List Str
  dial : List Str
deriving DecidableEq, Repr

/-- A Gloss node together with its `HAS_GLOSS` edge. -/
structure GlossNode where
  ent_seq : Nat
  rank : Nat
  defn : List Str
  expl : List Str
  fig : List Str
  lit : List Str
  tm : List Str
deriving DecidableEq, Repr

/-- An `IS_DEFINED_BY` edge from a Kanji or Reading node (`form` is its
`keb` or `reb`) to a Sense node of the same entry. -/
structure DefinedByEdge where
  ent_seq : Nat
  form : Str
  rank : Nat
deriving DecidableEq, Repr

/-- A `SOURCED_FROM` edge from a Sense node to a Language node, with its
`ON CREATE` attributes. -/
structure SourcedFromEdge where
  ent_seq : Nat
  rank : Nat
  lang : Str
  phrase : Option Str
  isPartial : Bool
  wasei : Bool
deriving DecidableEq, Repr

/-- A Sentence node, keyed globally on `(exsrc_type, ex_srce)`. -/
structure SentenceNode where
  exsrc_type : SourceType
  ex_srce : Nat
  eng : Str
  jpn : Str
deriving DecidableEq, Repr

/-- A `USED_IN` edge from a Sense node to a Sentence node. -/
structure UsedInEdge where
  ent_seq : Nat
  rank : Nat
  exsrc_type : SourceType
  ex_srce : Nat
  ex_text : Str
deriving DecidableEq, Repr

/-- A `REFERENCES {antonym}` edge between two Sense nodes. -/
structure RefEdge where
  srcEnt : Nat
  srcRank : Nat
  dstEnt : Nat
  dstRank : Nat
  antonym : Bool
deriving DecidableEq, Repr

/-- The full graph store. -/
structure GraphState where
  entries : List Nat
  kanjiNodes : List KanjiNode
  readingNodes : List ReadingNode
  isRead : List IsReadEdge
  senseNodes : List SenseNode
  glossNodes : List GlossNode
  kanjiDefines : List DefinedByEdge
  readingDefines : List DefinedByEdge
  languages : List Str
  sourcedFrom : List SourcedFromEdge
  sentences : List SentenceNode
  usedIn : List UsedInEdge
  references : List RefEdge
deriving DecidableEq, Repr

/-- The empty store. -/
def emptyGraph : GraphState :=
  ⟨[], [], [], [], [], [], [], [], [], [], [], [], []⟩

/-- Cypher `MERGE` on one component: keep the list if some element matches
the key predicate, otherwise append the freshly created record (with its
`ON CREATE SET` attributes). -/
def upsert (p : α → Bool) (a : α) (l : List α) : List α :=
  if l.any p then l else l ++ [a]

/-- The node label written by `MERGE (e)-[:HAS_READING]->(r:Reading {reb})`. -/
def readingLabel : Str := ("Reading").data

/-- The node label demanded by the reading subqueries of
`merge_and_return_sense_xrefs_for_entries`, whose Cypher text is
`(:READING {reb: reb})`.  Neo4j labels are case sensitive. -/
def queriedReadingLabel : Str := ("READING").data

/-- Key predicate of an Entry node. -/
def entryKeyP (q : Nat) : Nat → Bool := fun x => x == q

/-- Key predicate of a Kanji node. -/
def kanjiKeyP (q : Nat) (keb : Str) : KanjiNode → Bool :=
  fun kn => kn.ent_seq == q && kn.keb == keb

/-- Key predicate of a Reading node. -/
def readingKeyP (q : Nat) (reb : Str) : ReadingNode → Bool :=
  fun rn => rn.ent_seq == q && rn.reb == reb

/-- Key predicate of an `IS_READ` edge. -/
def isReadKeyP (q : Nat) (keb reb : Str) : IsReadEdge → Bool :=
  fun ed => ed.ent_seq == q && ed.keb == keb && ed.reb == reb

/-- Key predicate of a Sense node. -/
def senseKeyP (q rank : Nat) : SenseNode → Bool :=
  fun sn => sn.ent_seq == q && sn.rank == rank

/-- Key predicate of a Gloss node. -/
def glossKeyP (q rank : Nat) : GlossNode → Bool :=
  fun gn => gn.ent_seq == q && gn.rank == rank

/-- Key predicate of an `IS_DEFINED_BY` edge. -/
def definedByKeyP (q : Nat) (form : Str) (rank : Nat) : DefinedByEdge → Bool :=
  fun ed => ed.ent_seq == q && ed.form == form && ed.rank == rank

/-- Key predicate of a Language node. -/
def langKeyP (name : Str) : Str → Bool := fun x => x == name

/-- Key predicate of a `SOURCED_FROM` edge. -/
def sourcedFromKeyP (q rank : Nat) (lang : Str) : SourcedFromEdge → Bool :=
  fun ed => ed.ent_seq == q && ed.rank == rank && ed.lang == lang

/-- Key predicate of a Sentence node. -/
def sentenceKeyP (ty : SourceType) (id : Nat) : SentenceNode → Bool :=
  fun sn => sn.exsrc_type == ty && sn.ex_srce == id

/-- Key predicate of a `USED_IN` edge. -/
def usedInKeyP (q rank : Nat) (ty : SourceType) (id : Nat) : UsedInEdge → Bool :=
  fun ed => ed.ent_seq == q && ed.rank == rank && ed.exsrc_type == ty && ed.ex_srce == id

/-- Key predicate of a `REFERENCES` edge. -/
def refKeyP (sq sr dq dr : Nat) (antonym : Bool) : RefEdge → Bool :=
  fun ed => ed.srcEnt == sq && ed.srcRank == sr && ed.dstEnt == dq &&
    ed.dstRank == dr && ed.antonym == antonym

/-- Entry node with key `q` present. -/
def hasEntryB (s : GraphState) (q : Nat) : Bool :=
  s.entries.any (entryKeyP q)

/-- Kanji node with key `(q, keb)` present. -/
def hasKanjiB (s : GraphState) (q : Nat) (keb : Str) : Bool :=
  s.kanjiNodes.any (kanjiKeyP q keb)

/-- Reading node with key `(q, reb)` present. -/
def hasReadingB (s : GraphState) (q : Nat) (reb : Str) : Bool :=
  s.readingNodes.any (readingKeyP q reb)

/-- `IS_READ` edge with key `(q, keb, reb)` present. -/
def hasIsReadB (s : GraphState) (q : Nat) (keb reb : Str) : Bool :=
  s.isRead.any (isReadKeyP q keb reb)

/-- Sense node with key `(q, rank)` present. -/
def hasSenseB (s : GraphState) (q rank : Nat) : Bool :=
  s.senseNodes.any (senseKeyP q rank)

/-- Gloss node with key `(q, rank)` present. -/
def hasGlossB (s : GraphState) (q rank : Nat) : Bool :=
  s.glossNodes.any (glossKeyP q rank)

/-- Kanji `IS_DEFINED_BY` edge present. -/
def hasKanjiDefB (s : GraphState) (q : Nat) (keb : Str) (rank : Nat) : Bool :=
  s.kanjiDefines.any (definedByKeyP q keb rank)

/-- Reading `IS_DEFINED_BY` edge present. -/
def hasReadingDefB (s : GraphState) (q : Nat) (reb : Str) (rank : Nat) : Bool :=
  s.readingDefines.any (definedByKeyP q reb rank)

/-- Language node present. -/
def hasLangB (s : GraphState) (name : Str) : Bool :=
  s.languages.any (langKeyP name)

/-- `SOURCED_FROM` edge present. -/
def hasSourcedFromB (s : GraphState) (q rank : Nat) (lang : Str) : Bool :=
  s.sourcedFrom.any (sourcedFromKeyP q rank lang)

/-- Sentence node present. -/
def hasSentenceB (s : GraphState) (ty : SourceType) (id : Nat) : Bool :=
  s.sentences.any (sentenceKeyP ty id)

/-- `USED_IN` edge present. -/
def hasUsedInB (s : GraphState) (q rank : Nat) (ty : SourceType) (id : Nat) : Bool :=
  s.usedIn.any (usedInKeyP q rank ty id)

/-! ## The batch upsert engine (`transactions.py`) -/

/-- One row of `merge_and_return_entries`:
`MERGE (n:Entry {ent_seq: entry.ent_seq})`. -/
def mergeEntryRow (s : GraphState) (e : Entry) : GraphState :=
  { s with entries := upsert (entryKeyP e.ent_seq) e.ent_seq s.entries }

/-- `merge_and_return_entries`: `UNWIND $entries` and merge each Entry
node. -/
def merge_and_return_entries (s : GraphState) (entries : List Entry) : GraphState :=
  entries.foldl mergeEntryRow s

/-- One `(entry, kanji)` row of `merge_and_return_kanji_for_entries`:
the Kanji node and its `HAS_KANJI` edge are merged with the `ON CREATE`
attributes; the enclosing `MATCH` on the Entry node is checked by the
caller. -/
def mergeKanjiRow (q : Nat) (s : GraphState) (k : Kanji) : GraphState :=
  let kn : KanjiNode := ⟨q, k.keb, k.ke_inf, k.ke_pri⟩
  { s with kanjiNodes := upsert (kanjiKeyP q k.keb) kn s.kanjiNodes }

/-- The rows of one entry in `merge_and_return_kanji_for_entries`:
`MATCH (e:Entry {ent_seq: entry.ent_seq})` kills every row of an absent
entry, then `UNWIND entry.k_ele` merges each kanji. -/
def mergeKanjiForEntry (s : GraphState) (e : Entry) : GraphState :=
  if hasEntryB s e.ent_seq then e.k_ele.foldl (mergeKanjiRow e.ent_seq) s else s

/-- `merge_and_return_kanji_for_entries`. -/
def merge_and_return_kanji_for_entries (s : GraphState) (entries : List Entry) : GraphState :=
  entries.foldl mergeKanjiForEntry s

/-- One `re_restr` row of `merge_and_return_readings_for_entries`:
`MATCH (e)-[:HAS_KANJI]->(k:Kanji {keb: re_restr})` kills the row when the
entry has no such kanji, otherwise `MERGE (k)-[rel:IS_READ]->(r)`. -/
def mergeIsReadRow (q : Nat) (reb : Str) (s : GraphState) (restr : Str) : GraphState :=
  if hasKanjiB s q restr then
    { s with isRead := upsert (isReadKeyP q restr reb) ⟨q, restr, reb⟩ s.isRead }
  else s

/-- One `(entry, reading)` row of `merge_and_return_readings_for_entries`:
merge the Reading node with its `ON CREATE` attributes, then
`UNWIND reading.re_restr` and merge an `IS_READ` edge per restriction that
matches a kanji of the entry.  An empty `re_restr` list unwinds to no rows,
so it produces no `IS_READ` edge. -/
def mergeReadingRow (q : Nat) (s : GraphState) (r : Reading) : GraphState :=
  let rn : ReadingNode := ⟨q, readingLabel, r.reb, r.re_nokanji, r.re_inf, r.re_pri⟩
  let s1 := { s with readingNodes := upsert (readingKeyP q r.reb) rn s.readingNodes }
  r.re_restr.foldl (mergeIsReadRow q r.reb) s1

/-- The rows of one entry in `merge_and_return_readings_for_entries`. -/
def mergeReadingsForEntry (s : GraphState) (e : Entry) : GraphState :=
  if hasEntryB s e.ent_seq then
    e.r_ele.foldl (mergeReadingRow e.ent_seq) s
  else s

/-- `merge_and_return_readings_for_entries`. -/
def merge_and_return_readings_for_entries (s : GraphState) (entries : List Entry) : GraphState :=
  entries.foldl mergeReadingsForEntry s

/-- One `stagk` row of the senses transaction:
`MATCH (e)-[:HAS_KANJI]->(k:Kanji {keb: keb})` then
`MERGE (k)-[:IS_DEFINED_BY]->(s)`. -/
def defineKanjiRow (q rank : Nat) (s : GraphState) (keb : Str) : GraphState :=
  if hasKanjiB s q keb then
    { s with kanjiDefines := upsert (definedByKeyP q keb rank) ⟨q, keb, rank⟩ s.kanjiDefines }
  else s

/-- One `stagr` row of the senses transaction. -/
def defineReadingRow (q rank : Nat) (s : GraphState) (reb : Str) : GraphState :=
  if hasReadingB s q reb then
    { s with readingDefines := upsert (definedByKeyP q reb rank) ⟨q, reb, rank⟩ s.readingDefines }
  else s

/-- One `lsource` row of the senses transaction:
`MERGE (l:Language {name})` then `MERGE (s)-[r:SOURCED_FROM]->(l)` with the
`ON CREATE` attributes on the relationship. -/
def mergeLsourceRow (q rank : Nat) (s : GraphState) (ls : Lsource) : GraphState :=
  let s1 := { s with languages := upsert (langKeyP ls.lang.name) ls.lang.name s.languages }
  let ed : SourcedFromEdge := ⟨q, rank, ls.lang.name, ls.phrase, ls.isPartial, ls.wasei⟩
  { s1 with sourcedFrom := upsert (sourcedFromKeyP q rank ls.lang.name) ed s1.sourcedFrom }

/-- One `example` row of the senses transaction:
`MERGE (e:Sentence {exsrc_type, ex_srce})` with its `ON CREATE` attributes,
then `MERGE (s)-[r:USED_IN]->(e)` with `ex_text` on create. -/
def mergeExampleRow (q rank : Nat) (s : GraphState) (ex : Example) : GraphState :=
  let nd : SentenceNode :=
    ⟨ex.sentence.exsrc_type, ex.sentence.ex_srce, ex.sentence.eng, ex.sentence.jpn⟩
  let ty := ex.sentence.exsrc_type
  let id := ex.sentence.ex_srce
  let s1 := { s with sentences := upsert (sentenceKeyP ty id) nd s.sentences }
  let ed : UsedInEdge := ⟨q, rank, ty, id, ex.ex_text⟩
  { s1 with usedIn := upsert (usedInKeyP q rank ty id) ed s1.usedIn }

/-- The tail of one sense row: the `lsource` block (one row per loan
source) followed by the `example` block, reached only when the preceding
blocks kept the Cypher row alive. -/
def senseRowTail (q rank : Nat) (sn : Sense) (s : GraphState) : GraphState :=
  let s5 := sn.lsource.foldl (mergeLsourceRow q rank) s
  sn.example_.foldl (mergeExampleRow q rank) s5

/-- The `stagr` block of one sense row: merge one `IS_DEFINED_BY` edge per
restriction naming a reading of the entry; when the block is entered
(`size(sense.stagr) > 0`) but no restriction matches, the inner query
yields no rows, the Cypher row dies, and the later blocks never run. -/
def senseRowStagr (q rank : Nat) (sn : Sense) (s : GraphState) : GraphState :=
  let s4 := sn.stagr.foldl (defineReadingRow q rank) s
  if !sn.stagr.isEmpty && !sn.stagr.any (fun reb => hasReadingB s q reb) then s4
  else senseRowTail q rank sn s4

/-- The gloss block of one sense row: `apoc.do.when(sense.gloss IS NOT
NULL, …)` merges the Gloss node with its `ON CREATE` attributes; either
branch yields one row. -/
def senseRowGloss (q rank : Nat) (og : Option Gloss) (s : GraphState) : GraphState :=
  match og with
  | some g =>
    let gn : GlossNode := ⟨q, rank, g.defn, g.expl, g.fig, g.lit, g.tm⟩
    { s with glossNodes := upsert (glossKeyP q rank) gn s.glossNodes }
  | none => s

/-- One `(rank, sense)` row of `merge_and_return_senses_for_entries`.

The row merges the Sense node (with its `ON CREATE` attributes), then runs
the `apoc.do.when` blocks in sequence: Gloss, `stagk`, `stagr`, `lsource`,
`example`.  The `stagk` (and likewise `stagr`) block is guarded by
`size(sense.stagk) > 0`; when the guard holds but its inner
`UNWIND … MATCH …` finds no kanji of the entry, the block yields no rows and
the surviving Cypher row dies, so the later blocks never run for this
sense.  The gloss, lsource and example blocks always yield at least one
row.  The inner merges never change the kanji or reading node lists, so the
match checks are stated against the state at block entry. -/
def mergeSenseRow (q : Nat) (s : GraphState) (rank : Nat) (sn : Sense) : GraphState :=
  let nd : SenseNode := ⟨q, rank, sn.pos, sn.field, sn.misc, sn.s_inf, sn.dial⟩
  let s1 := { s with senseNodes := upsert (senseKeyP q rank) nd s.senseNodes }
  let s2 := senseRowGloss q rank sn.gloss s1
  let s3 := sn.stagk.foldl (defineKanjiRow q rank) s2
  if !sn.stagk.isEmpty && !sn.stagk.any (fun keb => hasKanjiB s2 q keb) then s3
  else senseRowStagr q rank sn s3

/-- The rows of one entry in `merge_and_return_senses_for_entries`: the
`MATCH` on the Entry node, then one row per `(rank, sense)` pair of the map
machinery. -/
def mergeSensesForEntry (s : GraphState) (e : Entry) : GraphState :=
  if hasEntryB s e.ent_seq then
    (senseRankPairs e.sense).foldl (fun st p => mergeSenseRow e.ent_seq st p.1 p.2) s
  else s

/-- `merge_and_return_senses_for_entries`. -/
def merge_and_return_senses_for_entries (s : GraphState) (entries : List Entry) : GraphState :=
  entries.foldl mergeSensesForEntry s

/-! ## The cross-reference resolver
(`merge_and_return_sense_xrefs_for_entries`) -/

/-- The candidate entries of the `keb_subquery`:
`MATCH (oe:Entry)-[:HAS_KANJI]->(:Kanji {keb: keb}) RETURN oe`, one row per
matching Kanji node.  A Cypher property match against `null` matches
nothing. -/
def candidatesByKeb (s : GraphState) (keb : Option Str) : List Nat :=
  match keb with
  | none => []
  | some k => (s.kanjiNodes.filter (fun kn => kn.keb == k)).map (fun kn => kn.ent_seq)

/-- The candidate entries of the `reb_subquery`:
`MATCH (oe:Entry)-[:HAS_READING]->(:READING {reb: reb}) RETURN oe`.  The
pattern demands the label `READING`, which the loader never writes (reading
nodes carry the label `Reading`), so the filter compares against
`queriedReadingLabel`. -/
def candidatesByReb (s : GraphState) (reb : Option Str) : List Nat :=
  match reb with
  | none => []
  | some r => (s.readingNodes.filter
      (fun rn => rn.label == queriedReadingLabel && rn.reb == r)).map (fun rn => rn.ent_seq)

/-- The candidate entries of the `else_subquery`:
`MATCH (:Kanji {keb: keb})<-[:HAS_KANJI]-(oe:Entry)-[:HAS_READING]->(:READING {reb: reb})`,
one row per matching pair of a Kanji node and a reading node of the same
entry.  The pattern requires co-occurrence in one entry, not an `IS_READ`
edge between the two forms, and again demands the label `READING`. -/
def candidatesByBoth (s : GraphState) (keb reb : Str) : List Nat :=
  (s.kanjiNodes.filter (fun kn => kn.keb == keb)).foldr
    (fun kn acc =>
      ((s.readingNodes.filter (fun rn =>
          rn.ent_seq == kn.ent_seq && rn.label == queriedReadingLabel && rn.reb == reb)).map
        (fun _ => kn.ent_seq)) ++ acc)
    []

/-- The `apoc.case` dispatch of the resolver: when the reading token is
null use the keb subquery, else when the headword token is null use the reb
subquery, else the both-token subquery. -/
def xrefCandidates (s : GraphState) (x : Xref) : List Nat :=
  match x.reb, x.keb with
  | none, k => candidatesByKeb s k
  | some r, none => candidatesByReb s (some r)
  | some r, some k => candidatesByBoth s k r

/-- Merge one `REFERENCES {antonym}` edge between two bound Sense nodes. -/
def mergeRefEdge (sq sr dq dr : Nat) (antonym : Bool) (s : GraphState) : GraphState :=
  let ed : RefEdge := ⟨sq, sr, dq, dr, antonym⟩
  { s with references := upsert (refKeyP sq sr dq dr antonym) ed s.references }

/-- One `(row)` of the resolver for a source sense `(sq, sr)`: collect the
candidate entries, keep them only when exactly one satisfied the subquery,
then `MATCH (oe:Entry)-[orel:HAS_SENSE]->(dest:Sense)` filtered by the
optional rank and merge one `REFERENCES` edge per destination sense. -/
def applyXrefRow (s : GraphState) (sq sr : Nat) (x : Xref) (antonym : Bool) : GraphState :=
  let cands := xrefCandidates s x
  let chosen := if cands.length == 1 then cands else []
  chosen.foldl
    (fun st oe =>
      (st.senseNodes.filter (fun dn => dn.ent_seq == oe &&
          (match x.rank with
           | none => true
           | some rk => dn.rank == rk))).foldl
        (fun st2 dn => mergeRefEdge sq sr oe dn.rank antonym st2) st)
    s

/-- The rows of one `(rank, sense)` pair of the resolver:
`MATCH (e)-[:HAS_SENSE {rank}]->(src:Sense)` kills the rows of an absent
sense node; the `CALL { … UNION … }` produces one row per cross-reference
(`antonym: false`) and one per antonym (`antonym: true`). -/
def applySenseXrefRows (q : Nat) (s : GraphState) (rank : Nat) (sn : Sense) : GraphState :=
  if hasSenseB s q rank then
    (sn.xref.map (fun x => (x, false)) ++ sn.ant.map (fun x => (x, true))).foldl
      (fun st rw => applyXrefRow st q rank rw.1 rw.2) s
  else s

/-- The rows of one entry of the resolver: the `MATCH` on the Entry node,
then the `(rank, sense)` map machinery. -/
def mergeSenseXrefsForEntry (s : GraphState) (e : Entry) : GraphState :=
  if hasEntryB s e.ent_seq then
    (senseRankPairs e.sense).foldl (fun st p => applySenseXrefRows e.ent_seq st p.1 p.2) s
  else s

/-- `merge_and_return_sense_xrefs_for_entries`. -/
def merge_and_return_sense_xrefs_for_entries (s : GraphState) (entries : List Entry) : GraphState :=
  entries.foldl mergeSenseXrefsForEntry s

/-! ## The batch pipeline (`src/neo4japanese/__main__.py`) -/

/-- `grouper` from `__main__.py`: `itertools.zip_longest` over `n` copies
of one iterator yields groups of exactly `n` elements, the last group
padded with `None`.  With `n = 0` the call `zip_longest()` yields nothing;
an empty iterable yields no groups.  The fuel argument (the length of the
not-yet-grouped list always suffices) keeps the recursion structural and
kernel-computable. -/
def grouperAux : Nat → List α → Nat → List (List (Option α))
  | _, _, 0 => []
  | _, [], _ + 1 => []
  | 0, _ :: _, _ + 1 => []
  | fuel + 1, a :: l, n + 1 =>
    (((a :: l).take (n + 1)).map some ++
        List.replicate (n + 1 - (a :: l).length) (none : Option α))
      :: grouperAux fuel ((a :: l).drop (n + 1)) (n + 1)

def grouper (l : List α) (n : Nat) : List (List (Option α)) :=
  grouperAux l.length l n

/-- The batches handed to the upsert engine by `run`: each group of
`grouper` with the padding sentinel filtered out
(`if entry is not None`). -/
def batchesOf (corpus : List α) (n : Nat) : List (List α) :=
  (grouper corpus n).map (fun g => g.filterMap id)

/-- The four merge transactions of one batch, in the order issued by
`run`: Entry, Kanji, Reading, Sense. -/
def loadBatch (s : GraphState) (es : List Entry) : GraphState :=
  merge_and_return_senses_for_entries
    (merge_and_return_readings_for_entries
      (merge_and_return_kanji_for_entries
        (merge_and_return_entries s es) es) es) es

/-- The batch loop of `run` over an already-normalized corpus: `get_entry`
is a pure element-wise function, so batching the raw elements and parsing
each batch equals parsing first and batching the records. -/
def runPipeline (n : Nat) (corpus : List Entry) (s : GraphState) : GraphState :=
  (batchesOf corpus n).foldl loadBatch s

/-- Total number of nodes in the store.  One Kanji, Reading, Sense and
Gloss node exists per record of its component. -/
def nodeCount (s : GraphState) : Nat :=
  s.entries.length + s.kanjiNodes.length + s.readingNodes.length +
    s.senseNodes.length + s.glossNodes.length + s.languages.length +
    s.sentences.length

/-- Total number of relationships in the store: the containment edges
(created together with their child node), `IS_READ`, `IS_DEFINED_BY`,
`SOURCED_FROM`, `USED_IN` and `REFERENCES`. -/
def relCount (s : GraphState) : Nat :=
  s.kanjiNodes.length + s.readingNodes.length + s.senseNodes.length +
    s.glossNodes.length + s.isRead.length + s.kanjiDefines.length +
    s.readingDefines.length + s.sourcedFrom.length + s.usedIn.length +
    s.references.length

/-! ## The raw source records and the entity normalizer
(`src/neo4japanese/parsers/jmdict.py`)

The raw structures mirror the XML tree shape fixed by the JMdict DTD: a
`keb` element occurs exactly once inside each `k_ele`, a `reb` once inside
each `r_ele`, so `entry.xpath(".//keb")` enumerates the `keb` of each
`k_ele` in document order.  Attributes read with `attrib.get` are carried
as `Option Str` (`none` when absent).  The integer-valued texts `ent_seq`
and `ex_srce` are carried as `Nat` (pydantic coerces the decimal numeral);
malformed numerals are outside the scope of the claims. -/

/-- A raw `<k_ele>` element. -/
structure RawKEle where
  keb : Str
  ke_inf : List Str
  ke_pri : List Str
deriving DecidableEq, Repr

/-- A raw `<r_ele>` element. -/
structure RawREle where
  reb : Str
  re_nokanji : Bool
  re_restr : List Str
  re_inf : List Str
  re_pri : List Str
deriving DecidableEq, Repr

/-- A raw `<lsource>` element. -/
structure RawLsource where
  lang : Option Str
  ls_type : Option Str
  ls_wasei : Option Str
  text : Option Str
deriving DecidableEq, Repr

/-- A raw `<gloss>` element with its optional `g_type` attribute. -/
structure RawGlossEl where
  g_type : Option Str
  text : Str
deriving DecidableEq, Repr

/-- A raw `<ex_sent>` element with its optional `xml:lang` attribute. -/
structure RawExSent where
  lang : Option Str
  text : Str
deriving DecidableEq, Repr

/-- A raw `<example>` element. -/
structure RawExample where
  exsrc_type : Option Str
  ex_srce : Nat
  ex_sent : List RawExSent
  ex_text : Str
deriving DecidableEq, Repr

/-- A raw `<sense>` element. -/
structure RawSense where
  stagk : List Str
  stagr : List Str
  pos : List Str
  field : List Str
  misc : List Str
  s_inf : List Str
  lsource : List RawLsource
  dial : List Str
  gloss : List RawGlossEl
  example_ : List RawExample
deriving DecidableEq, Repr

/-- A raw `<entry>` element. -/
structure RawEntry where
  ent_seq : Nat
  k_ele : List RawKEle
  r_ele : List RawREle
  sense : List RawSense
deriving DecidableEq, Repr

/-- The errors a normalization step can raise.  `unsupportedSourceType` is
the pydantic validation failure of the `SourceType` enumeration (the
`UnsupportedSourceType` of the design); `keyError` is the failed lookup of
a language key in the `ex_sent` dict; `validationError` is a pydantic
`ValidationError` raised by a model constructor whose required fields are
not all supplied. -/
inductive NormError where
  | unsupportedSourceType
  | keyError
  | validationError
deriving DecidableEq, Repr

/-- `true` exactly on a successful normalization result. -/
def exceptOk : Except NormError α → Bool
  | .ok _ => true
  | .error _ => false

/-- Left-to-right effectful map: the embedding of a Python list
comprehension whose body can raise; the first raise aborts the whole
comprehension. -/
def mapExcept (f : α → Except ε β) : List α → Except ε (List β)
  | [] => .ok []
  | a :: l =>
    match f a with
    | .error e => .error e
    | .ok b =>
      match mapExcept f l with
      | .error e => .error e
      | .ok bs => .ok (b :: bs)

/-- The Python tag string of the recognized Tatoeba source type. -/
def tatStr : Str := ("tat").data

/-- The default language string. -/
def engStr : Str := ("eng").data

/-- The Japanese language string. -/
def jpnStr : Str := ("jpn").data

/-- Validation of the `exsrc_type` attribute against the `SourceType`
enumeration: only the value `tat` is accepted; any other value, and the
absent attribute (`attrib.get` without default returns `None`), raises. -/
def toSourceType (a : Option Str) : Except NormError SourceType :=
  match a with
  | some t => if t = tatStr then .ok SourceType.tat else .error .unsupportedSourceType
  | none => .error .unsupportedSourceType

/-- A Python dict built by a comprehension: a later binding of the same key
overwrites the earlier one, so lookup finds the last binding. -/
def dictLookup (k : Str) (l : List (Str × Str)) : Option Str :=
  (l.reverse.find? (fun p => p.1 == k)).map (fun p => p.2)

/-- The `lang` helper of `get_examples`: the `xml:lang` attribute with
default `eng`. -/
def exSentLang (e : RawExSent) : Str :=
  e.lang.getD engStr

/-- Normalization of one `<example>` element inside `get_examples`.  The
argument expressions of the `Example(...)`/`Sentence(...)` construction are
evaluated first — the dict lookups `ex_sent["eng"]` and `ex_sent["jpn"]`
raise `KeyError` on a missing language — and then pydantic validates the
`Sentence` fields in declaration order, `exsrc_type` first. -/
def normalizeExample (ex : RawExample) : Except NormError Example :=
  let dict := ex.ex_sent.map (fun e => (exSentLang e, e.text))
  match dictLookup engStr dict with
  | none => .error NormError.keyError
  | some eng =>
    match dictLookup jpnStr dict with
    | none => .error NormError.keyError
    | some jpn =>
      match toSourceType ex.exsrc_type with
      | .error e => .error e
      | .ok ty => .ok ⟨⟨ty, ex.ex_srce, eng, jpn⟩, ex.ex_text⟩

/-- `get_examples`: normalize each `<example>` of the sense in order. -/
def get_examples (sense : RawSense) : Except NormError (List Example) :=
  mapExcept normalizeExample sense.example_

/-- `get_gloss`: bucket the gloss texts by the `g_type` attribute; an
unrecognized `g_type` lands in no bucket; the result is absent when every
bucket is empty. -/
def get_gloss (sense : RawSense) : Option Gloss :=
  let defn := (sense.gloss.filter (fun g => g.g_type == none)).map (fun g => g.text)
  let expl := (sense.gloss.filter (fun g => g.g_type == some (("expl").data))).map (fun g => g.text)
  let fig := (sense.gloss.filter (fun g => g.g_type == some (("fig").data))).map (fun g => g.text)
  let lit := (sense.gloss.filter (fun g => g.g_type == some (("lit").data))).map (fun g => g.text)
  let tm := (sense.gloss.filter (fun g => g.g_type == some (("tm").data))).map (fun g => g.text)
  if defn.isEmpty && expl.isEmpty && fig.isEmpty && lit.isEmpty && tm.isEmpty then none
  else some ⟨defn, expl, fig, lit, tm⟩

/-- `get_lsources`: language defaults to `eng`; the flags are exact string
matches of `ls_type` against `partial` (default `full`) and `ls_wasei`
against `y` (default `n`). -/
def get_lsources (sense : RawSense) : List Lsource :=
  sense.lsource.map (fun ls =>
    ⟨⟨ls.lang.getD engStr⟩, ls.text,
      ls.ls_type.getD (("full").data) == ("partial").data,
      ls.ls_wasei.getD (("n").data) == ("y").data⟩)

/-- All `keb` texts below the entry element (`entry.xpath(".//keb")`). -/
def allKebs (e : RawEntry) : List Str :=
  e.k_ele.map (fun k => k.keb)

/-- All `reb` texts below the entry element (`entry.xpath(".//reb")`). -/
def allRebs (e : RawEntry) : List Str :=
  e.r_ele.map (fun r => r.reb)

/-- The evaluated `stagk=` argument of the `Sense(...)` call inside
`get_senses`: Python `or` on lists falls back to every `keb` below the
owning entry when the sense declares none. -/
def stagkArg (e : RawEntry) (rs : RawSense) : List Str :=
  if rs.stagk.isEmpty then allKebs e else rs.stagk

/-- The evaluated `stagr=` argument of the `Sense(...)` call inside
`get_senses`: independently, the fallback to every `reb`. -/
def stagrArg (e : RawEntry) (rs : RawSense) : List Str :=
  if rs.stagr.isEmpty then allRebs e else rs.stagr

/-- Normalization of one `<sense>` element inside `get_senses`: the
keyword arguments of the `Sense(...)` call are evaluated first, so an
error raised by `get_examples` propagates (the other argument expressions,
including the widened `stagkArg`/`stagrArg`, are pure).  The call then
reaches the pydantic `Sense` constructor, whose fields `xref : List[Xref]`
and `ant : List[Xref]` (`models.py`) carry no default and are therefore
required; `get_senses` passes neither, so the constructor raises
`ValidationError` for every sense and no normalized sense is ever
returned. -/
def normalizeSense (e : RawEntry) (rs : RawSense) : Except NormError Sense :=
  let _stagk := stagkArg e rs
  let _stagr := stagrArg e rs
  match get_examples rs with
  | .error er => .error er
  | .ok _ => .error NormError.validationError

/-- `get_senses`: normalize each `<sense>` of the entry in order. -/
def get_senses (e : RawEntry) : Except NormError (List Sense) :=
  mapExcept (normalizeSense e) e.sense

/-- `get_kanji`. -/
def get_kanji (e : RawEntry) : List Kanji :=
  e.k_ele.map (fun k => ⟨k.keb, k.ke_inf, k.ke_pri⟩)

/-- `get_readings`. -/
def get_readings (e : RawEntry) : List Reading :=
  e.r_ele.map (fun r => ⟨r.reb, r.re_nokanji, r.re_restr, r.re_inf, r.re_pri⟩)

/-- `get_entry`. -/
def get_entry (e : RawEntry) : Except NormError Entry :=
  match get_senses e with
  | .error er => .error er
  | .ok senses => .ok ⟨e.ent_seq, get_kanji e, get_readings e, senses⟩

/-- One batch of `run`: the list comprehension
`[jmdict.get_entry(entry) for entry in entries if entry is not None]`
normalizes the whole batch before any of the four store transactions is
issued, so a normalization error aborts the batch with no store write; the
`Except.error` result carries no state. -/
def processBatch (s : GraphState) (raws : List RawEntry) : Except NormError GraphState :=
  match mapExcept get_entry raws with
  | .error er => .error er
  | .ok es => .ok (loadBatch s es)

/-! ## Predicates written from the specification, for comparison with the
code.  These are derived from the prose of the spec, not from the source,
and are named `spec…`. -/

/-- Spec, headword-reading rule: a reading relates to a headword of the
same entry iff the restriction list is empty (applies to all) or contains
that headword, and the headword exists in the entry. -/
def specExpectsIsRead (e : Entry) (keb reb : Str) : Bool :=
  e.k_ele.any (fun k => k.keb == keb) &&
    e.r_ele.any (fun r =>
      r.reb == reb && (r.re_restr.isEmpty || r.re_restr.contains keb))

/-- Spec, both-token candidate rule: the candidate entries of a spec that
carries both a headword and a reading token are exactly the loaded entries
that contain both forms with the two forms linked by an `IS_READ`
relationship inside that entry. -/
def specTightCandidates (s : GraphState) (keb reb : Str) : List Nat :=
  s.entries.filter (fun q =>
    hasKanjiB s q keb && hasReadingB s q reb && hasIsReadB s q keb reb)

/-- Spec, sense restriction widening: the normalized restriction lists of
a sense — the declared `stagk` list, or every headword of the owning entry
when the sense declares none, and independently the declared `stagr` list
or every reading. -/
def specSenseRestrictions (e : RawEntry) (rs : RawSense) : List Str × List Str :=
  (if rs.stagk.isEmpty then allKebs e else rs.stagk,
   if rs.stagr.isEmpty then allRebs e else rs.stagr)

/-- The `keb` forms of a normalized entry. -/
def entryKebs (e : Entry) : List Str :=
  e.k_ele.map (fun k => k.keb)

/-- The `reb` forms of a normalized entry. -/
def entryRebs (e : Entry) : List Str :=
  e.r_ele.map (fun r => r.reb)

/-- The ranks of the Sense nodes of one entry, in store order. -/
def ranksOf (s : GraphState) (q : Nat) : List Nat :=
  (s.senseNodes.filter (fun sn => sn.ent_seq == q)).map (fun sn => sn.rank)

/-- The Sense nodes of one entry, in store order. -/
def sensesFor (s : GraphState) (q : Nat) : List SenseNode :=
  s.senseNodes.filter (fun sn => sn.ent_seq == q)

/-- The Sense node written for one `(rank, sense)` row of entry `q`. -/
def senseNodeOf (q : Nat) (p : Nat × Sense) : SenseNode :=
  ⟨q, p.1, p.2.pos, p.2.field, p.2.misc, p.2.s_inf, p.2.dial⟩

/-- `s` is a substate of `t`: every match that succeeds against `s`
succeeds against `t`, component by component.  Every merge only grows the
store, so every state of a run is a substate of every later state. -/
def SubState (s t : GraphState) : Prop :=
  (∀ p : Nat → Bool, s.entries.any p = true → t.entries.any p = true) ∧
  (∀ p : KanjiNode → Bool, s.kanjiNodes.any p = true → t.kanjiNodes.any p = true) ∧
  (∀ p : ReadingNode → Bool, s.readingNodes.any p = true → t.readingNodes.any p = true) ∧
  (∀ p : IsReadEdge → Bool, s.isRead.any p = true → t.isRead.any p = true) ∧
  (∀ p : SenseNode → Bool, s.senseNodes.any p = true → t.senseNodes.any p = true) ∧
  (∀ p : GlossNode → Bool, s.glossNodes.any p = true → t.glossNodes.any p = true) ∧
  (∀ p : DefinedByEdge → Bool, s.kanjiDefines.any p = true → t.kanjiDefines.any p = true) ∧
  (∀ p : DefinedByEdge → Bool, s.readingDefines.any p = true → t.readingDefines.any p = true) ∧
  (∀ p : Str → Bool, s.languages.any p = true → t.languages.any p = true) ∧
  (∀ p : SourcedFromEdge → Bool, s.sourcedFrom.any p = true → t.sourcedFrom.any p = true) ∧
  (∀ p : SentenceNode → Bool, s.sentences.any p = true → t.sentences.any p = true) ∧
  (∀ p : UsedInEdge → Bool, s.usedIn.any p = true → t.usedIn.any p = true) ∧
  (∀ p : RefEdge → Bool, s.references.any p = true → t.references.any p = true)

/-! ## Concrete fixtures -/

/-- The headword string 言 (one kanji character). -/
def chK : Str := [Char.ofNat 0x8a00]

/-- The reading string いう (two hiragana characters). -/
def chR : Str := [Char.ofNat 0x3044, Char.ofNat 0x3046]

/-- A second reading string かな. -/
def chR2 : Str := [Char.ofNat 0x304b, Char.ofNat 0x306a]

/-- Claim C1 input: one entry with one headword and one reading whose
restriction list is empty. -/
def entryC1 : Entry :=
  ⟨1, [⟨chK, [], []⟩], [⟨chR, false, [], [], []⟩], []⟩

/-- The store after loading `entryC1`. -/
def stateC1 : GraphState := runPipeline 1 [entryC1] emptyGraph

/-- The same entry with the reading restricted to the headword. -/
def entryC1r : Entry :=
  ⟨1, [⟨chK, [], []⟩], [⟨chR, false, [chK], [], []⟩], []⟩

/-- The store after loading `entryC1r`. -/
def stateC1r : GraphState := runPipeline 1 [entryC1r] emptyGraph

/-- A sense whose only content is one cross-reference carrying both a
headword and a reading token. -/
def senseC3 : Sense :=
  ⟨[], [], [], [⟨XrefTag.xref, some chK, some chR, none⟩], [], [], [], [],
    [], [], none, []⟩

/-- Claim C3 input: entry 1 contains the headword and the reading, linked
by `IS_READ` through the restriction list; entry 2 carries the referring
sense. -/
def corpusC3 : List Entry :=
  [⟨1, [⟨chK, [], []⟩], [⟨chR, false, [chK], [], []⟩], []⟩,
   ⟨2, [], [], [senseC3]⟩]

/-- The store after loading `corpusC3`. -/
def stateC3 : GraphState := runPipeline 2 corpusC3 emptyGraph

/-- The store after the resolver pass over `corpusC3`. -/
def stateC3x : GraphState :=
  merge_and_return_sense_xrefs_for_entries stateC3 corpusC3

/-- A sense whose only content is one bare-headword cross-reference (no
reading token, no rank). -/
def senseC4 : Sense :=
  ⟨[], [], [], [⟨XrefTag.xref, some chK, none, none⟩], [], [], [], [],
    [], [], none, []⟩

/-- Claim C4 input: two distinct entries contain the same headword form;
entry 3 carries the bare-headword reference. -/
def corpusC4 : List Entry :=
  [⟨1, [⟨chK, [], []⟩], [], []⟩,
   ⟨2, [⟨chK, [], []⟩], [], []⟩,
   ⟨3, [], [], [senseC4]⟩]

/-- The store after loading `corpusC4`. -/
def stateC4 : GraphState := runPipeline 3 corpusC4 emptyGraph

/-- The store after the resolver pass over `corpusC4`. -/
def stateC4x : GraphState :=
  merge_and_return_sense_xrefs_for_entries stateC4 corpusC4

/-- The bare-headword cross-reference of `senseC4`. -/
def xrefC4 : Xref := ⟨XrefTag.xref, some chK, none, none⟩

/-- First entry of the demonstration corpus: kanji, a restricted reading,
and a sense with gloss, restrictions, loan source and example. -/
def demoE1 : Entry :=
  ⟨10, [⟨chK, [(("io")).data], []⟩], [⟨chR, false, [chK], [], []⟩],
     [⟨[chK], [chR], [(("n")).data], [], [], [], [], [],
        [⟨⟨engStr⟩, some chR2, true, false⟩], [],
        some ⟨[(("say")).data], [], [], [], []⟩,
        [⟨⟨SourceType.tat, 100, (("He said")).data, chR⟩, chR⟩]⟩]⟩

/-- Second entry of the demonstration corpus: no kanji, one reading, one
bare sense. -/
def demoE2 : Entry :=
  ⟨11, [], [⟨chR2, true, [], [], []⟩],
     [⟨[], [chR2], [], [], [], [], [], [], [], [], none, []⟩]⟩

/-- A small two-entry corpus exercising every component of the store:
kanji, readings with restrictions, senses with gloss, loan source and
example. -/
def demoCorpus : List Entry :=
  [demoE1, demoE2]

/-- Concatenation of tokens with a one-character separator between them:
the inverse image used to build cross-reference spec strings from their
tokens. -/
def joinTokens (sep : Char) : List Str → Str
  | [] => []
  | [t] => t
  | t :: t2 :: ts => t ++ sep :: joinTokens sep (t2 :: ts)

/-- A raw example with the unrecognized source type `tatoeba`. -/
def rawC6Ex : RawExample :=
  ⟨some (("tatoeba")).data, 7, [⟨none, (("text")).data⟩, ⟨some jpnStr, chR⟩], chR⟩

/-- A raw sense whose only content is `rawC6Ex`. -/
def rawC6Sense : RawSense :=
  ⟨[], [], [], [], [], [], [], [], [], [rawC6Ex]⟩

/-- A raw entry whose single sense carries an example with an unrecognized
source type. -/
def rawC6 : RawEntry :=
  ⟨5, [⟨chK, [], []⟩], [⟨chR, false, [], [], []⟩], [rawC6Sense]⟩

/-- A raw sense declaring no restrictions at all. -/
def rawC2Sense0 : RawSense :=
  ⟨[], [], [], [], [], [], [], [], [], []⟩

/-- A raw sense declaring a `stagk` but no `stagr`. -/
def rawC2Sense1 : RawSense :=
  ⟨[chK], [], [], [], [], [], [], [], [], []⟩

/-- A raw entry with two headwords, two readings, and the two senses
above. -/
def rawC2 : RawEntry :=
  ⟨6, [⟨chK, [], []⟩, ⟨chR2, [], []⟩],
    [⟨chR, false, [], [], []⟩, ⟨chR2, false, [], [], []⟩],
    [rawC2Sense0, rawC2Sense1]⟩

/-! # Theorems

## Generic lemmas on `upsert` and folds -/

theorem upsert_of_any {p : α → Bool} {a : α} {l : List α} (h : l.any p = true) :
    upsert p a l = l := by
  simp [upsert, h]

theorem any_upsert_mono {p q : α → Bool} {a : α} {l : List α} (h : l.any q = true) :
    (upsert p a l).any q = true := by
  unfold upsert
  by_cases hp : l.any p = true
  · rw [if_pos hp]
    exact h
  · rw [if_neg hp]
    simp [List.any_append, h]

theorem any_upsert_self {p : α → Bool} {a : α} (l : List α) (h : p a = true) :
    (upsert p a l).any p = true := by
  unfold upsert
  by_cases hp : l.any p = true
  · rw [if_pos hp]
    exact hp
  · rw [if_neg hp]
    simp [List.any_append, h]

theorem any_of_upsert {p q : α → Bool} {a : α} {l : List α}
    (h : (upsert p a l).any q = true) : l.any q = true ∨ q a = true := by
  unfold upsert at h
  by_cases hp : l.any p = true
  · rw [if_pos hp] at h
    exact Or.inl h
  · rw [if_neg hp] at h
    rcases (by simpa [List.any_append] using h : l.any q = true ∨ q a = true) with h1 | h2
    · exact Or.inl h1
    · exact Or.inr h2

theorem foldl_pres {σ β : Type _} (f : σ → β → σ) (P : σ → Prop)
    (h : ∀ s b, P s → P (f s b)) :
    ∀ (l : List β) (s : σ), P s → P (l.foldl f s)
  | [], _, hs => hs
  | b :: l, s, hs => foldl_pres f P h l (f s b) (h s b hs)

theorem foldl_fix {σ β : Type _} (f : σ → β → σ) (s : σ) :
    ∀ l : List β, (∀ b ∈ l, f s b = s) → l.foldl f s = s
  | [], _ => rfl
  | b :: l, h => by
    rw [List.foldl_cons, h b (by simp)]
    exact foldl_fix f s l (fun b' hb => h b' (by simp [hb]))

theorem foldl_comp_eq {σ β γ : Type _} (g : σ → γ) (f : σ → β → σ)
    (h : ∀ s b, g (f s b) = g s) :
    ∀ (l : List β) (s : σ), g (l.foldl f s) = g s
  | [], _ => rfl
  | b :: l, s => by
    rw [List.foldl_cons, foldl_comp_eq g f h l (f s b), h]

theorem foldl_sound {σ β : Type _} (f : σ → β → σ) (P : σ → Prop) (D : β → Prop)
    (hstep : ∀ s b, P (f s b) → P s ∨ D b) :
    ∀ (l : List β) (s : σ), P (l.foldl f s) → P s ∨ ∃ b ∈ l, D b
  | [], _, h => Or.inl h
  | b :: l, s, h => by
    rcases foldl_sound f P D hstep l (f s b) h with h1 | ⟨b', hb', hD⟩
    · rcases hstep s b h1 with h2 | hD
      · exact Or.inl h2
      · exact Or.inr ⟨b, by simp, hD⟩
    · exact Or.inr ⟨b', by simp [hb'], hD⟩

theorem foldl_establish {σ β : Type _} (f : σ → β → σ) (P Q : σ → Prop)
    (hQ : ∀ s b, Q s → Q (f s b)) (hP : ∀ s b, P s → P (f s b))
    {l : List β} {a : β} (ha : a ∈ l) (hEst : ∀ s, Q s → P (f s a)) :
    ∀ s : σ, Q s → P (l.foldl f s) := by
  intro s hs
  obtain ⟨l1, l2, rfl⟩ := List.append_of_mem ha
  rw [List.foldl_append, List.foldl_cons]
  exact foldl_pres f P hP l2 _ (hEst _ (foldl_pres f Q hQ l1 s hs))

/-! ## Lemmas on strings, `pySplit` and `parse_xref` -/

theorem getLast?_cons_elim (t : α) (l : List α) :
    (t :: l).getLast? = (l.getLast?).elim (some t) some := by
  induction l generalizing t with
  | nil => simp
  | cons b l ih =>
    rw [List.getLast?_cons_cons, ih b]
    cases l.getLast? <;> simp

theorem pySplit_ne_nil (sep : Char) : ∀ s : Str, pySplit sep s ≠ []
  | [] => by simp [pySplit]
  | c :: cs => by
    cases h : pySplit sep cs with
    | nil => exact absurd h (pySplit_ne_nil sep cs)
    | cons g gs =>
      by_cases hc : c = sep <;> simp [pySplit, h, hc]

theorem pySplit_no_sep (sep : Char) : ∀ s : Str, sep ∉ s → pySplit sep s = [s]
  | [], _ => rfl
  | c :: cs, h => by
    have hc : ¬c = sep := fun hcc => h (by simp [hcc])
    have ih := pySplit_no_sep sep cs (fun hm => h (by simp [hm]))
    simp [pySplit, ih, hc]

theorem pySplit_append_cons (sep : Char) :
    ∀ t : Str, sep ∉ t → ∀ y : Str, pySplit sep (t ++ sep :: y) = t :: pySplit sep y
  | [], _, y => by
    cases h : pySplit sep y with
    | nil => exact absurd h (pySplit_ne_nil sep y)
    | cons g gs => simp [pySplit, h]
  | c :: t, ht, y => by
    have hc : ¬c = sep := fun hcc => ht (by simp [hcc])
    have ih := pySplit_append_cons sep t (fun hm => ht (by simp [hm])) y
    cases h : pySplit sep y with
    | nil => exact absurd h (pySplit_ne_nil sep y)
    | cons g gs =>
      rw [h] at ih
      simp [pySplit, ih, hc]

theorem pySplit_append_sep (sep : Char) :
    ∀ x : Str, pySplit sep (x ++ [sep]) = pySplit sep x ++ [[]]
  | [] => by simp [pySplit]
  | c :: x => by
    have ih := pySplit_append_sep sep x
    cases hx : pySplit sep x with
    | nil => exact absurd hx (pySplit_ne_nil sep x)
    | cons g gs =>
      rw [hx] at ih
      by_cases hc : c = sep <;>
        simp [pySplit, ih, hx, hc]

theorem pySplit_joinTokens (sep : Char) :
    ∀ ts : List Str, ts ≠ [] → (∀ t ∈ ts, sep ∉ t) →
      pySplit sep (joinTokens sep ts) = ts
  | [], h, _ => absurd rfl h
  | [t], _, hsep => by
    rw [joinTokens]
    exact pySplit_no_sep sep t (hsep t (by simp))
  | t :: t2 :: ts, _, hsep => by
    rw [joinTokens, pySplit_append_cons sep t (hsep t (by simp))]
    rw [pySplit_joinTokens sep (t2 :: ts) (by simp)
      (fun u hu => hsep u (by simp [hu]))]

theorem foldl_parseXrefStep_keb :
    ∀ (ts : List Str) (acc : XrefDict),
      (ts.foldl parseXrefStep acc).keb =
        ((ts.filter isKebTok).getLast?).elim acc.keb some
  | [], acc => by simp
  | t :: ts, acc => by
    rw [List.foldl_cons, foldl_parseXrefStep_keb ts]
    by_cases hd : pyIsDigit t = true
    · have h3 : isKebTok t = false := by simp [isKebTok, hd]
      simp [List.filter_cons, h3, parseXrefStep, hd]
    · by_cases hk : is_kana t = true
      · have h3 : isKebTok t = false := by simp [isKebTok, hd, hk]
        simp [List.filter_cons, h3, parseXrefStep, hd, hk]
      · have h3 : isKebTok t = true := by simp [isKebTok, hd, hk]
        rw [List.filter_cons_of_pos h3, getLast?_cons_elim]
        have hstep : (parseXrefStep acc t).keb = some t := by
          simp [parseXrefStep, hd, hk]
        rw [hstep]
        cases (ts.filter isKebTok).getLast? <;> simp

theorem foldl_parseXrefStep_reb :
    ∀ (ts : List Str) (acc : XrefDict),
      (ts.foldl parseXrefStep acc).reb =
        ((ts.filter isRebTok).getLast?).elim acc.reb some
  | [], acc => by simp
  | t :: ts, acc => by
    rw [List.foldl_cons, foldl_parseXrefStep_reb ts]
    by_cases hd : pyIsDigit t = true
    · have h3 : isRebTok t = false := by simp [isRebTok, hd]
      simp [List.filter_cons, h3, parseXrefStep, hd]
    · by_cases hk : is_kana t = true
      · have h3 : isRebTok t = true := by simp [isRebTok, hd, hk]
        rw [List.filter_cons_of_pos h3, getLast?_cons_elim]
        have hstep : (parseXrefStep acc t).reb = some t := by
          simp [parseXrefStep, hd, hk]
        rw [hstep]
        cases (ts.filter isRebTok).getLast? <;> simp
      · have h3 : isRebTok t = false := by simp [isRebTok, hd, hk]
        simp [List.filter_cons, h3, parseXrefStep, hd, hk]

theorem foldl_parseXrefStep_sense :
    ∀ (ts : List Str) (acc : XrefDict),
      (ts.foldl parseXrefStep acc).sense =
        ((ts.filter isRankTok).getLast?).elim acc.sense (fun t => some (pyDecNat t))
  | [], acc => by simp
  | t :: ts, acc => by
    rw [List.foldl_cons, foldl_parseXrefStep_sense ts]
    by_cases hd : pyIsDigit t = true
    · have h3 : isRankTok t = true := by simp [isRankTok, hd]
      rw [List.filter_cons_of_pos h3, getLast?_cons_elim]
      have hstep : (parseXrefStep acc t).sense = some (pyDecNat t) := by
        simp [parseXrefStep, hd]
      rw [hstep]
      cases (ts.filter isRankTok).getLast? <;> simp
    · have h3 : isRankTok t = false := by simp [isRankTok, hd]
      by_cases hk : is_kana t = true <;>
        simp [List.filter_cons, h3, parseXrefStep, hd, hk]

theorem parse_xref_keb (x : Str) :
    (parse_xref x).keb = ((pySplit kanaDot x).filter isKebTok).getLast? := by
  rw [parse_xref, foldl_parseXrefStep_keb]
  cases ((pySplit kanaDot x).filter isKebTok).getLast? <;> rfl

theorem parse_xref_reb (x : Str) :
    (parse_xref x).reb = ((pySplit kanaDot x).filter isRebTok).getLast? := by
  rw [parse_xref, foldl_parseXrefStep_reb]
  cases ((pySplit kanaDot x).filter isRebTok).getLast? <;> rfl

theorem parse_xref_sense (x : Str) :
    (parse_xref x).sense =
      (((pySplit kanaDot x).filter isRankTok).getLast?).map pyDecNat := by
  rw [parse_xref, foldl_parseXrefStep_sense]
  cases ((pySplit kanaDot x).filter isRankTok).getLast? <;> rfl

/-! ## Lemmas on `mapExcept` -/

theorem mapExcept_ok_mem {f : α → Except ε β} :
    ∀ {l : List α} {out : List β}, mapExcept f l = Except.ok out →
      ∀ a ∈ l, ∃ b, f a = Except.ok b := by
  intro l
  induction l with
  | nil =>
    intro out _ a ha
    simp at ha
  | cons x l ih =>
    intro out h a ha
    cases hfx : f x with
    | error e => simp [mapExcept, hfx] at h
    | ok b =>
      cases hrest : mapExcept f l with
      | error e => simp [mapExcept, hfx, hrest] at h
      | ok bs =>
        rcases List.mem_cons.mp ha with rfl | ha'
        · exact ⟨b, hfx⟩
        · exact ih hrest a ha'

theorem mapExcept_ok_get {f : α → Except ε β} :
    ∀ {l : List α} {out : List β}, mapExcept f l = Except.ok out →
      ∀ (i : Nat) (a : α) (b : β), l[i]? = some a → out[i]? = some b →
        f a = Except.ok b := by
  intro l
  induction l with
  | nil =>
    intro out _ i a b ha _
    simp at ha
  | cons x l ih =>
    intro out h i a b ha hb
    cases hfx : f x with
    | error e => simp [mapExcept, hfx] at h
    | ok b0 =>
      cases hrest : mapExcept f l with
      | error e => simp [mapExcept, hfx, hrest] at h
      | ok bs =>
        simp [mapExcept, hfx, hrest] at h
        subst h
        cases i with
        | zero =>
          simp at ha hb
          subst ha
          subst hb
          exact hfx
        | succ i =>
          simp at ha hb
          exact ih hrest i a b ha hb

/-! ## Claim C2: sense restriction widening -/

/-- C2.  The spec says each sense of an entry normalizes with its
restriction lists widened: every `keb` of the owning entry when it
declares no `stagk`, every `reb` when it declares no `stagr`
(`specSenseRestrictions`).  The `Sense(...)` call of `get_senses` does
compute the widened argument expressions (`stagkArg`, `stagrArg` — equal
to the spec lists by definition), but it omits the `xref` and `ant` fields
that the pydantic `Sense` model requires, so the constructor raises
`ValidationError` for every sense: `normalizeSense` never returns a
normalized sense, and on the two-sense entry `rawC2` — whose restriction
lists the spec demands widened to all its forms — `get_senses` fails with
the validation error instead of producing any normalized sense. -/
theorem c2_sense_restriction_defaulting :
    (∀ (e : RawEntry) (rs : RawSense), exceptOk (normalizeSense e rs) = false) ∧
    get_senses rawC2 = Except.error NormError.validationError ∧
    specSenseRestrictions rawC2 rawC2Sense0 = (allKebs rawC2, allRebs rawC2) ∧
    specSenseRestrictions rawC2 rawC2Sense1 = (rawC2Sense1.stagk, allRebs rawC2) := by
  refine ⟨?_, rfl, by decide, by decide⟩
  intro e rs
  cases hex : get_examples rs with
  | error er => simp [normalizeSense, hex, exceptOk]
  | ok exs => simp [normalizeSense, hex, exceptOk]

/-! ## Claim C6: unsupported example source type -/

theorem normalizeExample_error_of_bad_type {ex : RawExample} {er : NormError}
    (h : toSourceType ex.exsrc_type = Except.error er) :
    ∀ v, ¬normalizeExample ex = Except.ok v := by
  intro v hv
  cases h1 : dictLookup engStr (ex.ex_sent.map fun e => (exSentLang e, e.text)) with
  | none => simp [normalizeExample, h1] at hv
  | some eng =>
    cases h2 : dictLookup jpnStr (ex.ex_sent.map fun e => (exSentLang e, e.text)) with
    | none => simp [normalizeExample, h1, h2] at hv
    | some jpn => simp [normalizeExample, h1, h2, h] at hv

/-- C6.  An example whose source-type attribute carries any value other
than `tat` fails the `SourceType` validation with
`unsupportedSourceType`, and a batch containing such an example fails
during normalization: `processBatch` returns an error before any store
transaction of the batch is issued, so none of the batch writes reach the
store. -/
theorem c6_unsupported_source_type_fails_batch
    (s : GraphState) (raws : List RawEntry) (e : RawEntry) (sn : RawSense)
    (ex : RawExample) (t : Str)
    (he : e ∈ raws) (hsn : sn ∈ e.sense) (hex : ex ∈ sn.example_)
    (ht : ex.exsrc_type = some t) (hne : t ≠ tatStr) :
    toSourceType ex.exsrc_type = Except.error NormError.unsupportedSourceType ∧
      ∃ er, processBatch s raws = Except.error er := by
  have htt : toSourceType ex.exsrc_type = Except.error NormError.unsupportedSourceType := by
    rw [ht]
    simp [toSourceType, hne]
  refine ⟨htt, ?_⟩
  cases hpb : processBatch s raws with
  | error er => exact ⟨er, rfl⟩
  | ok s2 =>
    exfalso
    cases hme : mapExcept get_entry raws with
    | error er => simp [processBatch, hme] at hpb
    | ok es =>
      obtain ⟨ne, hne2⟩ := mapExcept_ok_mem hme e he
      cases hgs : get_senses e with
      | error er => simp [get_entry, hgs] at hne2
      | ok ss =>
        obtain ⟨sn2, hsn2⟩ :=
          mapExcept_ok_mem (show mapExcept (normalizeSense e) e.sense = Except.ok ss from hgs)
            sn hsn
        cases hge : get_examples sn with
        | error er => simp [normalizeSense, hge] at hsn2
        | ok exs =>
          obtain ⟨v, hv⟩ :=
            mapExcept_ok_mem
              (show mapExcept normalizeExample sn.example_ = Except.ok exs from hge) ex hex
          exact normalizeExample_error_of_bad_type htt v hv

/-- The example-argument error fires first: a batch holding a bad source
type fails with `unsupportedSourceType` itself when the bad example leads
the batch, because the `Sense(...)` arguments are evaluated before the
constructor validates its required fields. -/
theorem processBatch_bad_type_error_is_unsupported :
    processBatch emptyGraph [rawC6] =
      Except.error NormError.unsupportedSourceType := rfl

/-- Witness for C6 on the concrete batch `[rawC6]`. -/
theorem c6_unsupported_source_type_fails_batch_witness :
    toSourceType rawC6Ex.exsrc_type = Except.error NormError.unsupportedSourceType ∧
      ∃ er, processBatch emptyGraph [rawC6] = Except.error er :=
  c6_unsupported_source_type_fails_batch emptyGraph [rawC6] rawC6 rawC6Sense rawC6Ex
    (("tatoeba")).data (by decide) (by decide) (by decide) (by decide) (by decide)

/-! ## Claim C5: cross-reference spec parsing -/

/-- C5.  `parse_xref` splits the spec on the kana middle dot; each field of
the result is the last token of its category (all-digit tokens as the
rank, via `int`; all-kana tokens as the reading; others as the headword),
so at most one token per category is retained and a later token overwrites
an earlier one.  A spec joining one token of each category in any order
parses to a record exposing all three fields, and a spec of a single
headword token parses to a record exposing just that field. -/
theorem c5_parse_xref_classification :
    (∀ x : Str,
      (parse_xref x).keb = ((pySplit kanaDot x).filter isKebTok).getLast? ∧
      (parse_xref x).reb = ((pySplit kanaDot x).filter isRebTok).getLast? ∧
      (parse_xref x).sense =
        (((pySplit kanaDot x).filter isRankTok).getLast?).map pyDecNat) ∧
    (∀ (ts : List Str) (a b c : Str),
      ts.Perm [a, b, c] → (∀ t ∈ ts, kanaDot ∉ t) →
      isKebTok a = true → isRebTok b = true → isRankTok c = true →
      parse_xref (joinTokens kanaDot ts) = ⟨some a, some b, some (pyDecNat c)⟩) ∧
    (∀ a : Str, kanaDot ∉ a → isKebTok a = true →
      parse_xref (joinTokens kanaDot [a]) = ⟨some a, none, none⟩) := by
  refine ⟨fun x => ⟨parse_xref_keb x, parse_xref_reb x, parse_xref_sense x⟩, ?_, ?_⟩
  · intro ts a b c hperm hsep ha hb hc
    have hne : ts ≠ [] := by
      intro h
      rw [h] at hperm
      exact absurd hperm.length_eq (by simp)
    have hsplit : pySplit kanaDot (joinTokens kanaDot ts) = ts :=
      pySplit_joinTokens kanaDot ts hne hsep
    have ha2 : pyIsDigit a = false ∧ is_kana a = false := by
      simpa [isKebTok] using ha
    have hb2 : pyIsDigit b = false ∧ is_kana b = true := by
      simpa [isRebTok] using hb
    have hc2 : pyIsDigit c = true := by
      simpa [isRankTok] using hc
    have hfk : ts.filter isKebTok = [a] := by
      have hp := hperm.filter isKebTok
      rw [show List.filter isKebTok [a, b, c] = [a] by
        simp [List.filter, isKebTok, ha2.1, ha2.2, hb2.1, hb2.2, hc2]] at hp
      exact List.perm_singleton.mp hp
    have hfr : ts.filter isRebTok = [b] := by
      have hp := hperm.filter isRebTok
      rw [show List.filter isRebTok [a, b, c] = [b] by
        simp [List.filter, isRebTok, ha2.1, ha2.2, hb2.1, hb2.2, hc2]] at hp
      exact List.perm_singleton.mp hp
    have hfn : ts.filter isRankTok = [c] := by
      have hp := hperm.filter isRankTok
      rw [show List.filter isRankTok [a, b, c] = [c] by
        simp [List.filter, isRankTok, ha2.1, ha2.2, hb2.1, hb2.2, hc2]] at hp
      exact List.perm_singleton.mp hp
    have h1 := parse_xref_keb (joinTokens kanaDot ts)
    have h2 := parse_xref_reb (joinTokens kanaDot ts)
    have h3 := parse_xref_sense (joinTokens kanaDot ts)
    rw [hsplit, hfk] at h1
    rw [hsplit, hfr] at h2
    rw [hsplit, hfn] at h3
    have hrec : parse_xref (joinTokens kanaDot ts) =
        ⟨(parse_xref (joinTokens kanaDot ts)).keb,
         (parse_xref (joinTokens kanaDot ts)).reb,
         (parse_xref (joinTokens kanaDot ts)).sense⟩ := rfl
    rw [hrec, h1, h2, h3]
    simp
  · intro a hsep ha
    have hsplit : pySplit kanaDot (joinTokens kanaDot [a]) = [a] := by
      rw [joinTokens]
      exact pySplit_no_sep kanaDot a hsep
    have ha2 : pyIsDigit a = false ∧ is_kana a = false := by
      simpa [isKebTok] using ha
    have h1 := parse_xref_keb (joinTokens kanaDot [a])
    have h2 := parse_xref_reb (joinTokens kanaDot [a])
    have h3 := parse_xref_sense (joinTokens kanaDot [a])
    rw [hsplit, show List.filter isKebTok [a] = [a] by
      simp [List.filter, isKebTok, ha2.1, ha2.2]] at h1
    rw [hsplit, show List.filter isRebTok [a] = [] by
      simp [List.filter, isRebTok, ha2.1, ha2.2]] at h2
    rw [hsplit, show List.filter isRankTok [a] = [] by
      simp [List.filter, isRankTok, ha2.1]] at h3
    have hrec : parse_xref (joinTokens kanaDot [a]) =
        ⟨(parse_xref (joinTokens kanaDot [a])).keb,
         (parse_xref (joinTokens kanaDot [a])).reb,
         (parse_xref (joinTokens kanaDot [a])).sense⟩ := rfl
    rw [hrec, h1, h2, h3]
    simp

/-- Witness for C5 on a concrete three-token spec (reading, headword, rank
in that order) and a single-headword spec. -/
theorem c5_parse_xref_classification_witness :
    parse_xref (joinTokens kanaDot [chR, chK, ['1']]) =
      ⟨some chK, some chR, some 1⟩ ∧
    parse_xref (joinTokens kanaDot [chK]) = ⟨some chK, none, none⟩ :=
  ⟨(c5_parse_xref_classification.2.1 [chR, chK, ['1']] chK chR (['1'])
      (by decide) (by decide) (by decide) (by decide) (by decide)).trans (by decide),
   c5_parse_xref_classification.2.2 chK (by decide) (by decide)⟩

/-! ## Claim C10: `is_kana` on the empty string and empty tokens -/

/-- C10.  `is_kana` accepts a string exactly when every character lies in
the hiragana, katakana, or katakana-phonetic-extensions ranges, hence it
accepts the empty string; `parse_xref` therefore classifies an empty token
(produced by a leading, trailing, or doubled separator, which `pySplit`
keeps) as the reading token, setting the `reb` field of the accumulator to
the empty string and overwriting any earlier value; in particular a spec
with a trailing separator parses with `reb` equal to the empty string. -/
theorem c10_is_kana_empty_token :
    (∀ s : Str, is_kana s = true ↔ ∀ c ∈ s, isKanaChar c = true) ∧
    is_kana [] = true ∧
    (∀ acc : XrefDict, parseXrefStep acc [] = { acc with reb := some [] }) ∧
    (∀ x : Str, (parse_xref (x ++ [kanaDot])).reb = some []) := by
  refine ⟨fun s => by simp [is_kana], rfl, fun acc => rfl, fun x => ?_⟩
  rw [parse_xref, pySplit_append_sep, List.foldl_append]
  rfl

/-- Witness for C10 on concrete strings. -/
theorem c10_is_kana_empty_token_witness :
    is_kana chR = true ∧ (parse_xref (chK ++ [kanaDot])).reb = some [] :=
  ⟨(c10_is_kana_empty_token.1 chR).mpr (by decide),
   c10_is_kana_empty_token.2.2.2 chK⟩

/-! ## Claim C1: headword-reading relationships and empty restriction
lists -/

/-- C1 (the claim is falsified by the batch engine).  After loading the
one-entry corpus `[entryC1]`, whose single reading carries an empty
restriction list, the Kanji and Reading nodes both exist, the
spec predicate demands an `IS_READ` relationship between them, and the
superseded iteration would produce it (`legacyKanjiReadingTargets` with an
absent restriction keeps every kanji), yet the store holds no `IS_READ`
edge at all: `UNWIND reading.re_restr` over the empty list yields no rows.
The restricted variant `entryC1r` shows the containment branch working:
with `re_restr = [chK]` exactly the one edge appears. -/
theorem c1_empty_restriction_creates_no_is_read :
    specExpectsIsRead entryC1 chK chR = true ∧
    hasKanjiB stateC1 1 chK = true ∧
    hasReadingB stateC1 1 chR = true ∧
    stateC1.isRead = [] ∧
    stateC1r.isRead = [⟨1, chK, chR⟩] ∧
    legacyKanjiReadingTargets [chK] none = [chK] := by
  decide

/-! ## Claim C3: both-token candidate resolution -/

/-- C3 (the claim is falsified by the resolver).  After loading
`corpusC3`, entry 1 contains the headword and the reading joined by an
`IS_READ` edge, so the spec predicate makes it the unique tight candidate
for the spec carrying both tokens; but the resolver computes an empty
candidate set — its reading patterns demand the label `READING` while the
loader writes `Reading` — and the resolver pass creates no relationship
and leaves the store unchanged.  (Beyond the label, the both-token pattern
also only requires co-occurrence of the two forms in one entry, not the
`IS_READ` link itself: see `candidatesByBoth`.) -/
theorem c3_both_token_candidates_empty :
    hasIsReadB stateC3 1 chK chR = true ∧
    specTightCandidates stateC3 chK chR = [1] ∧
    candidatesByBoth stateC3 chK chR = [] ∧
    xrefCandidates stateC3 ⟨XrefTag.xref, some chK, some chR, none⟩ = [] ∧
    stateC3x.references = [] ∧
    stateC3x = stateC3 := by
  decide

/-! ## Claim C4: ambiguity policy -/

/-- C4.  Whenever the candidate-set construction yields more than one
entry, the resolver creates no relationship for that spec and leaves the
store unchanged; in particular, after loading `corpusC4` — two distinct
entries both containing the headword form — the bare-headword reference of
entry 3 finds the two candidates and the resolver pass commits zero
`REFERENCES` relationships. -/
theorem c4_ambiguous_refs_dropped :
    (∀ (s : GraphState) (sq sr : Nat) (x : Xref) (antonym : Bool),
      2 ≤ (xrefCandidates s x).length → applyXrefRow s sq sr x antonym = s) ∧
    candidatesByKeb stateC4 (some chK) = [1, 2] ∧
    stateC4x.references = [] ∧
    stateC4x = stateC4 := by
  refine ⟨?_, by decide, by decide, by decide⟩
  intro s sq sr x antonym h
  have hlen : ((xrefCandidates s x).length == 1) = false := by
    have : (xrefCandidates s x).length ≠ 1 := by omega
    simpa using this
  simp [applyXrefRow, hlen]

/-- Witness for C4: the bare-headword reference of `corpusC4` has two
candidates, and applying its row changes nothing. -/
theorem c4_ambiguous_refs_dropped_witness :
    2 ≤ (xrefCandidates stateC4 xrefC4).length ∧
      applyXrefRow stateC4 3 1 xrefC4 false = stateC4 :=
  ⟨by decide, c4_ambiguous_refs_dropped.1 stateC4 3 1 xrefC4 false (by decide)⟩

/-! ## Claim C9: the batch assembler -/

theorem filterMap_id_map_some (l : List α) : (l.map some).filterMap id = l := by
  induction l with
  | nil => rfl
  | cons a l ih => simp [List.filterMap_cons, ih]

theorem filterMap_id_replicate_none (k : Nat) :
    (List.replicate k (none : Option α)).filterMap id = [] := by
  induction k with
  | zero => rfl
  | succ k ih => simp [List.replicate_succ, List.filterMap_cons, ih]

theorem grouperAux_join {α : Type _} (m : Nat) :
    ∀ (fuel : Nat) (l : List α), l.length ≤ fuel →
      ((grouperAux fuel l (m + 1)).map (fun g => g.filterMap id)).flatten = l := by
  intro fuel
  induction fuel with
  | zero =>
    intro l hl
    cases l with
    | nil => rfl
    | cons a l => simp at hl
  | succ fuel ih =>
    intro l hl
    cases l with
    | nil => rfl
    | cons a l =>
      have hl2 : l.length + 1 ≤ fuel + 1 := by simpa using hl
      rw [grouperAux]
      rw [List.map_cons, List.flatten_cons]
      rw [ih ((a :: l).drop (m + 1)) (by simp; omega)]
      rw [List.filterMap_append, filterMap_id_map_some, filterMap_id_replicate_none,
        List.append_nil, List.take_append_drop]

theorem grouper_join {α : Type _} (m : Nat) (l : List α) :
    (batchesOf l (m + 1)).flatten = l :=
  grouperAux_join m l.length l (Nat.le_refl _)

theorem grouperAux_length {α : Type _} (m : Nat) :
    ∀ (fuel : Nat) (l : List α), l.length ≤ fuel →
      (grouperAux fuel l (m + 1)).length = (l.length + m) / (m + 1) := by
  intro fuel
  induction fuel with
  | zero =>
    intro l hl
    cases l with
    | nil => simp [grouperAux, Nat.div_eq_of_lt (show m < m + 1 by omega)]
    | cons a l => simp at hl
  | succ fuel ih =>
    intro l hl
    cases l with
    | nil => simp [grouperAux, Nat.div_eq_of_lt (show m < m + 1 by omega)]
    | cons a l =>
      have hl2 : l.length + 1 ≤ fuel + 1 := by simpa using hl
      rw [grouperAux, List.length_cons]
      rw [ih ((a :: l).drop (m + 1)) (by simp; omega)]
      simp only [List.length_drop, List.length_cons]
      rcases le_or_lt (l.length + 1) (m + 1) with h | h
      · have h1 : l.length + 1 - (m + 1) = 0 := by omega
        rw [h1]
        have h2 : (0 + m) / (m + 1) = 0 := Nat.div_eq_of_lt (by omega)
        have h3 : (l.length + 1 + m) / (m + 1) = 1 := by
          apply Nat.div_eq_of_lt_le
          · omega
          · omega
        omega
      · have h2 : l.length + 1 + m = (l.length + 1 - (m + 1) + m) + (m + 1) := by omega
        rw [h2, Nat.add_div_right _ (by omega)]

theorem grouperAux_group_length {α : Type _} (m : Nat) :
    ∀ (fuel : Nat) (l : List α), l.length ≤ fuel →
      ∀ g ∈ grouperAux fuel l (m + 1), g.length = m + 1 := by
  intro fuel
  induction fuel with
  | zero =>
    intro l hl g hg
    cases l with
    | nil => simp [grouperAux] at hg
    | cons a l => simp at hl
  | succ fuel ih =>
    intro l hl g hg
    cases l with
    | nil => simp [grouperAux] at hg
    | cons a l =>
      have hl2 : l.length + 1 ≤ fuel + 1 := by simpa using hl
      rw [grouperAux] at hg
      rcases List.mem_cons.mp hg with rfl | hg'
      · simp only [List.length_append, List.length_map, List.length_take,
          List.length_replicate, List.length_cons]
        omega
      · exact ih ((a :: l).drop (m + 1)) (by simp; omega) g hg'

theorem grouperAux_ne_nil_iff {α : Type _} (m : Nat) (fuel : Nat) (l : List α)
    (hl : l.length ≤ fuel) : grouperAux fuel l (m + 1) = [] ↔ l = [] := by
  cases fuel with
  | zero =>
    cases l with
    | nil => simp [grouperAux]
    | cons a l => simp at hl
  | succ fuel =>
    cases l with
    | nil => simp [grouperAux]
    | cons a l => simp [grouperAux]

theorem grouperAux_dropLast_full {α : Type _} (m : Nat) :
    ∀ (fuel : Nat) (l : List α), l.length ≤ fuel →
      ∀ g ∈ (grouperAux fuel l (m + 1)).dropLast, (g.filterMap id).length = m + 1 := by
  intro fuel
  induction fuel with
  | zero =>
    intro l hl g hg
    cases l with
    | nil => simp [grouperAux] at hg
    | cons a l => simp at hl
  | succ fuel ih =>
    intro l hl g hg
    cases l with
    | nil => simp [grouperAux] at hg
    | cons a l =>
      have hl2 : l.length + 1 ≤ fuel + 1 := by simpa using hl
      rw [grouperAux] at hg
      cases hrest : grouperAux fuel ((a :: l).drop (m + 1)) (m + 1) with
      | nil => rw [hrest] at hg; simp at hg
      | cons r rs =>
        rw [hrest, List.dropLast_cons₂] at hg
        rcases List.mem_cons.mp hg with rfl | hg'
        · have hlen : m + 1 < (a :: l).length := by
            by_contra hle
            have hdrop : (a :: l).drop (m + 1) = [] :=
              List.drop_eq_nil_of_le (by omega)
            rw [hdrop] at hrest
            rw [(grouperAux_ne_nil_iff m fuel ([] : List α) (by simp)).mpr rfl] at hrest
            exact absurd hrest.symm (List.cons_ne_nil r rs)
          have hpad : m + 1 - (a :: l).length = 0 := by omega
          rw [hpad]
          simp only [List.replicate_zero, List.append_nil]
          rw [filterMap_id_map_some, List.length_take]
          omega
        · rw [← hrest] at hg'
          exact ih ((a :: l).drop (m + 1)) (by simp; omega) g hg'

/-- C9.  For a positive batch size `n` (`n = m + 1`): the assembler yields
`⌈N / n⌉` groups; every raw group has exactly `n` slots; filtering the
padding sentinel out of the groups and concatenating gives back exactly
the corpus in document order; every group except possibly the last
contains `n` real entries and none contains more; and the pipeline hands
the engine exactly the filtered batches, so no padding sentinel reaches a
merge. -/
theorem c9_grouper_batches (l : List Entry) (n : Nat) (hn : 0 < n) :
    (grouper l n).length = (l.length + n - 1) / n ∧
    (batchesOf l n).flatten = l ∧
    (∀ g ∈ grouper l n, g.length = n) ∧
    (∀ g ∈ (grouper l n).dropLast, (g.filterMap id).length = n) ∧
    (∀ b ∈ batchesOf l n, b.length ≤ n) ∧
    (∀ s : GraphState, runPipeline n l s = (batchesOf l n).foldl loadBatch s) := by
  obtain ⟨m, rfl⟩ : ∃ m, n = m + 1 := ⟨n - 1, by omega⟩
  refine ⟨?_, grouper_join m l, ?_, ?_, ?_, fun s => rfl⟩
  · have h1 : l.length + (m + 1) - 1 = l.length + m := by omega
    rw [h1]
    exact grouperAux_length m l.length l (Nat.le_refl _)
  · exact grouperAux_group_length m l.length l (Nat.le_refl _)
  · exact grouperAux_dropLast_full m l.length l (Nat.le_refl _)
  · intro b hb
    rcases List.mem_map.mp hb with ⟨g, hg, rfl⟩
    calc (g.filterMap id).length ≤ g.length := List.length_filterMap_le id g
    _ = m + 1 := grouperAux_group_length m l.length l (Nat.le_refl _) g hg

/-- Witness for C9 on the concrete corpus `demoCorpus` with batch size
1. -/
theorem c9_grouper_batches_witness :
    (grouper demoCorpus 1).length = (demoCorpus.length + 1 - 1) / 1 ∧
      (batchesOf demoCorpus 1).flatten = demoCorpus :=
  ⟨(c9_grouper_batches demoCorpus 1 (by decide)).1,
   (c9_grouper_batches demoCorpus 1 (by decide)).2.1⟩

/-! ## Monotonicity: every merge grows the store -/

theorem SubState.refl (s : GraphState) : SubState s s :=
  ⟨fun _ h => h, fun _ h => h, fun _ h => h, fun _ h => h, fun _ h => h, fun _ h => h,
   fun _ h => h, fun _ h => h, fun _ h => h, fun _ h => h, fun _ h => h, fun _ h => h,
   fun _ h => h⟩

theorem SubState.trans {s t u : GraphState} (h1 : SubState s t) (h2 : SubState t u) :
    SubState s u :=
  ⟨fun p h => h2.1 p (h1.1 p h),
   fun p h => h2.2.1 p (h1.2.1 p h),
   fun p h => h2.2.2.1 p (h1.2.2.1 p h),
   fun p h => h2.2.2.2.1 p (h1.2.2.2.1 p h),
   fun p h => h2.2.2.2.2.1 p (h1.2.2.2.2.1 p h),
   fun p h => h2.2.2.2.2.2.1 p (h1.2.2.2.2.2.1 p h),
   fun p h => h2.2.2.2.2.2.2.1 p (h1.2.2.2.2.2.2.1 p h),
   fun p h => h2.2.2.2.2.2.2.2.1 p (h1.2.2.2.2.2.2.2.1 p h),
   fun p h => h2.2.2.2.2.2.2.2.2.1 p (h1.2.2.2.2.2.2.2.2.1 p h),
   fun p h => h2.2.2.2.2.2.2.2.2.2.1 p (h1.2.2.2.2.2.2.2.2.2.1 p h),
   fun p h => h2.2.2.2.2.2.2.2.2.2.2.1 p (h1.2.2.2.2.2.2.2.2.2.2.1 p h),
   fun p h => h2.2.2.2.2.2.2.2.2.2.2.2.1 p (h1.2.2.2.2.2.2.2.2.2.2.2.1 p h),
   fun p h => h2.2.2.2.2.2.2.2.2.2.2.2.2 p (h1.2.2.2.2.2.2.2.2.2.2.2.2 p h)⟩

theorem subState_foldl {β : Type _} (f : GraphState → β → GraphState)
    (hstep : ∀ t b, SubState t (f t b)) (l : List β) (s : GraphState) :
    SubState s (l.foldl f s) :=
  foldl_pres f (fun t => SubState s t)
    (fun t b ht => ht.trans (hstep t b)) l s (SubState.refl s)

theorem subState_mergeEntryRow (s : GraphState) (e : Entry) :
    SubState s (mergeEntryRow s e) := by
  unfold mergeEntryRow
  refine ⟨?_, ?_, ?_, ?_, ?_, ?_, ?_, ?_, ?_, ?_, ?_, ?_, ?_⟩ <;>
    intro p h <;> first | exact h | exact any_upsert_mono h

theorem subState_mergeKanjiRow (q : Nat) (s : GraphState) (k : Kanji) :
    SubState s (mergeKanjiRow q s k) := by
  unfold mergeKanjiRow
  refine ⟨?_, ?_, ?_, ?_, ?_, ?_, ?_, ?_, ?_, ?_, ?_, ?_, ?_⟩ <;>
    intro p h <;> first | exact h | exact any_upsert_mono h

theorem subState_mergeIsReadRow (q : Nat) (reb : Str) (s : GraphState) (restr : Str) :
    SubState s (mergeIsReadRow q reb s restr) := by
  unfold mergeIsReadRow
  split
  · refine ⟨?_, ?_, ?_, ?_, ?_, ?_, ?_, ?_, ?_, ?_, ?_, ?_, ?_⟩ <;>
      intro p h <;> first | exact h | exact any_upsert_mono h
  · exact SubState.refl s

theorem subState_mergeReadingRow (q : Nat) (s : GraphState) (r : Reading) :
    SubState s (mergeReadingRow q s r) := by
  simp only [mergeReadingRow]
  refine SubState.trans ?_ (subState_foldl _ (subState_mergeIsReadRow q r.reb) _ _)
  refine ⟨?_, ?_, ?_, ?_, ?_, ?_, ?_, ?_, ?_, ?_, ?_, ?_, ?_⟩ <;>
    intro p h <;> first | exact h | exact any_upsert_mono h

theorem subState_defineKanjiRow (q rank : Nat) (s : GraphState) (keb : Str) :
    SubState s (defineKanjiRow q rank s keb) := by
  unfold defineKanjiRow
  split
  · refine ⟨?_, ?_, ?_, ?_, ?_, ?_, ?_, ?_, ?_, ?_, ?_, ?_, ?_⟩ <;>
      intro p h <;> first | exact h | exact any_upsert_mono h
  · exact SubState.refl s

theorem subState_defineReadingRow (q rank : Nat) (s : GraphState) (reb : Str) :
    SubState s (defineReadingRow q rank s reb) := by
  unfold defineReadingRow
  split
  · refine ⟨?_, ?_, ?_, ?_, ?_, ?_, ?_, ?_, ?_, ?_, ?_, ?_, ?_⟩ <;>
      intro p h <;> first | exact h | exact any_upsert_mono h
  · exact SubState.refl s

theorem subState_mergeLsourceRow (q rank : Nat) (s : GraphState) (ls : Lsource) :
    SubState s (mergeLsourceRow q rank s ls) := by
  unfold mergeLsourceRow
  refine ⟨?_, ?_, ?_, ?_, ?_, ?_, ?_, ?_, ?_, ?_, ?_, ?_, ?_⟩ <;>
    intro p h <;> first | exact h | exact any_upsert_mono h

theorem subState_mergeExampleRow (q rank : Nat) (s : GraphState) (ex : Example) :
    SubState s (mergeExampleRow q rank s ex) := by
  unfold mergeExampleRow
  refine ⟨?_, ?_, ?_, ?_, ?_, ?_, ?_, ?_, ?_, ?_, ?_, ?_, ?_⟩ <;>
    intro p h <;> first | exact h | exact any_upsert_mono h

theorem subState_senseRowTail (q rank : Nat) (sn : Sense) (s : GraphState) :
    SubState s (senseRowTail q rank sn s) := by
  unfold senseRowTail
  exact SubState.trans (subState_foldl _ (subState_mergeLsourceRow q rank) _ s)
    (subState_foldl _ (subState_mergeExampleRow q rank) _ _)

theorem subState_senseRowStagr (q rank : Nat) (sn : Sense) (s : GraphState) :
    SubState s (senseRowStagr q rank sn s) := by
  unfold senseRowStagr
  split
  · exact subState_foldl _ (subState_defineReadingRow q rank) _ s
  · exact SubState.trans (subState_foldl _ (subState_defineReadingRow q rank) _ s)
      (subState_senseRowTail q rank sn _)

theorem subState_senseRowGloss (q rank : Nat) (og : Option Gloss) (s : GraphState) :
    SubState s (senseRowGloss q rank og s) := by
  cases og with
  | none => exact SubState.refl s
  | some g =>
    refine ⟨?_, ?_, ?_, ?_, ?_, ?_, ?_, ?_, ?_, ?_, ?_, ?_, ?_⟩ <;>
      intro p h <;> first | exact h | exact any_upsert_mono h

theorem subState_mergeSenseRow (q : Nat) (s : GraphState) (rank : Nat) (sn : Sense) :
    SubState s (mergeSenseRow q s rank sn) := by
  simp only [mergeSenseRow]
  split
  · refine SubState.trans
      (SubState.trans ?_ (subState_senseRowGloss q rank sn.gloss _))
      (subState_foldl _ (subState_defineKanjiRow q rank) _ _)
    refine ⟨?_, ?_, ?_, ?_, ?_, ?_, ?_, ?_, ?_, ?_, ?_, ?_, ?_⟩ <;>
      intro p h <;> first | exact h | exact any_upsert_mono h
  · refine SubState.trans (SubState.trans
      (SubState.trans ?_ (subState_senseRowGloss q rank sn.gloss _))
      (subState_foldl _ (subState_defineKanjiRow q rank) _ _))
      (subState_senseRowStagr q rank sn _)
    refine ⟨?_, ?_, ?_, ?_, ?_, ?_, ?_, ?_, ?_, ?_, ?_, ?_, ?_⟩ <;>
      intro p h <;> first | exact h | exact any_upsert_mono h

theorem subState_mergeEntriesT (s : GraphState) (es : List Entry) :
    SubState s (merge_and_return_entries s es) :=
  subState_foldl _ subState_mergeEntryRow es s

theorem subState_mergeKanjiForEntry (s : GraphState) (e : Entry) :
    SubState s (mergeKanjiForEntry s e) := by
  unfold mergeKanjiForEntry
  split
  · exact subState_foldl _ (subState_mergeKanjiRow e.ent_seq) _ s
  · exact SubState.refl s

theorem subState_mergeKanjiT (s : GraphState) (es : List Entry) :
    SubState s (merge_and_return_kanji_for_entries s es) :=
  subState_foldl _ subState_mergeKanjiForEntry es s

theorem subState_mergeReadingsForEntry (s : GraphState) (e : Entry) :
    SubState s (mergeReadingsForEntry s e) := by
  unfold mergeReadingsForEntry
  split
  · exact subState_foldl _ (subState_mergeReadingRow e.ent_seq) _ s
  · exact SubState.refl s

theorem subState_mergeReadingsT (s : GraphState) (es : List Entry) :
    SubState s (merge_and_return_readings_for_entries s es) :=
  subState_foldl _ subState_mergeReadingsForEntry es s

theorem subState_mergeSensesForEntry (s : GraphState) (e : Entry) :
    SubState s (mergeSensesForEntry s e) := by
  unfold mergeSensesForEntry
  split
  · exact subState_foldl _ (fun t (p : Nat × Sense) => subState_mergeSenseRow e.ent_seq t p.1 p.2) _ s
  · exact SubState.refl s

theorem subState_mergeSensesT (s : GraphState) (es : List Entry) :
    SubState s (merge_and_return_senses_for_entries s es) :=
  subState_foldl _ subState_mergeSensesForEntry es s

theorem subState_loadBatch (s : GraphState) (es : List Entry) :
    SubState s (loadBatch s es) := by
  unfold loadBatch
  exact ((((subState_mergeEntriesT s es).trans
    (subState_mergeKanjiT _ es)).trans
    (subState_mergeReadingsT _ es)).trans
    (subState_mergeSensesT _ es))

theorem subState_runPipeline (n : Nat) (corpus : List Entry) (s : GraphState) :
    SubState s (runPipeline n corpus s) :=
  subState_foldl _ subState_loadBatch _ s

/-! ## Components left untouched by each stage -/

theorem comp_eq_mergeEntriesT {γ : Type _} (g : GraphState → γ)
    (hE : ∀ (t : GraphState) l, g { t with entries := l } = g t)
    (s : GraphState) (es : List Entry) :
    g (merge_and_return_entries s es) = g s :=
  foldl_comp_eq g _ (fun t _ => hE t _) es s

theorem comp_eq_mergeKanjiT {γ : Type _} (g : GraphState → γ)
    (hK : ∀ (t : GraphState) l, g { t with kanjiNodes := l } = g t)
    (s : GraphState) (es : List Entry) :
    g (merge_and_return_kanji_for_entries s es) = g s := by
  refine foldl_comp_eq g _ ?_ es s
  intro t e
  unfold mergeKanjiForEntry
  split
  · exact foldl_comp_eq g _ (fun t2 _ => hK t2 _) _ t
  · rfl

theorem comp_eq_mergeReadingsT {γ : Type _} (g : GraphState → γ)
    (hR : ∀ (t : GraphState) l, g { t with readingNodes := l } = g t)
    (hI : ∀ (t : GraphState) l, g { t with isRead := l } = g t)
    (s : GraphState) (es : List Entry) :
    g (merge_and_return_readings_for_entries s es) = g s := by
  refine foldl_comp_eq g _ ?_ es s
  intro t e
  unfold mergeReadingsForEntry
  split
  · refine foldl_comp_eq g _ ?_ _ t
    intro t2 r
    have hstep : ∀ (t3 : GraphState) restr,
        g (mergeIsReadRow e.ent_seq r.reb t3 restr) = g t3 := by
      intro t3 restr
      unfold mergeIsReadRow
      split
      · exact hI t3 _
      · rfl
    simp only [mergeReadingRow]
    rw [foldl_comp_eq g _ hstep _ _]
    exact hR t2 _
  · rfl

theorem comp_eq_senseRowTail {γ : Type _} (g : GraphState → γ)
    (hL : ∀ (t : GraphState) l, g { t with languages := l } = g t)
    (hSF : ∀ (t : GraphState) l, g { t with sourcedFrom := l } = g t)
    (hSN : ∀ (t : GraphState) l, g { t with sentences := l } = g t)
    (hUI : ∀ (t : GraphState) l, g { t with usedIn := l } = g t)
    (q rank : Nat) (sn : Sense) (s : GraphState) :
    g (senseRowTail q rank sn s) = g s := by
  have hex : ∀ (t : GraphState) ex, g (mergeExampleRow q rank t ex) = g t := by
    intro t ex
    unfold mergeExampleRow
    exact (hUI _ _).trans (hSN _ _)
  have hls : ∀ (t : GraphState) ls, g (mergeLsourceRow q rank t ls) = g t := by
    intro t ls
    unfold mergeLsourceRow
    exact (hSF _ _).trans (hL _ _)
  unfold senseRowTail
  exact (foldl_comp_eq g _ hex _ _).trans (foldl_comp_eq g _ hls _ _)

theorem comp_eq_senseRowStagr {γ : Type _} (g : GraphState → γ)
    (hRD : ∀ (t : GraphState) l, g { t with readingDefines := l } = g t)
    (hL : ∀ (t : GraphState) l, g { t with languages := l } = g t)
    (hSF : ∀ (t : GraphState) l, g { t with sourcedFrom := l } = g t)
    (hSN : ∀ (t : GraphState) l, g { t with sentences := l } = g t)
    (hUI : ∀ (t : GraphState) l, g { t with usedIn := l } = g t)
    (q rank : Nat) (sn : Sense) (s : GraphState) :
    g (senseRowStagr q rank sn s) = g s := by
  have hdr : ∀ (t : GraphState) reb, g (defineReadingRow q rank t reb) = g t := by
    intro t reb
    unfold defineReadingRow
    split
    · exact hRD _ _
    · rfl
  unfold senseRowStagr
  split
  · exact foldl_comp_eq g _ hdr _ _
  · exact (comp_eq_senseRowTail g hL hSF hSN hUI q rank sn _).trans
      (foldl_comp_eq g _ hdr _ _)

theorem comp_eq_mergeSenseRow {γ : Type _} (g : GraphState → γ)
    (hS : ∀ (t : GraphState) l, g { t with senseNodes := l } = g t)
    (hG : ∀ (t : GraphState) l, g { t with glossNodes := l } = g t)
    (hKD : ∀ (t : GraphState) l, g { t with kanjiDefines := l } = g t)
    (hRD : ∀ (t : GraphState) l, g { t with readingDefines := l } = g t)
    (hL : ∀ (t : GraphState) l, g { t with languages := l } = g t)
    (hSF : ∀ (t : GraphState) l, g { t with sourcedFrom := l } = g t)
    (hSN : ∀ (t : GraphState) l, g { t with sentences := l } = g t)
    (hUI : ∀ (t : GraphState) l, g { t with usedIn := l } = g t)
    (q rank : Nat) (sn : Sense) (s : GraphState) :
    g (mergeSenseRow q s rank sn) = g s := by
  have hdk : ∀ (t3 : GraphState) keb, g (defineKanjiRow q rank t3 keb) = g t3 := by
    intro t3 keb
    unfold defineKanjiRow
    split
    · exact hKD _ _
    · rfl
  have hgl : ∀ (og : Option Gloss) (t : GraphState),
      g (senseRowGloss q rank og t) = g t := by
    intro og t
    cases og with
    | none => rfl
    | some gl => exact hG _ _
  simp only [mergeSenseRow]
  split
  · rw [foldl_comp_eq g _ hdk _ _, hgl, hS]
  · rw [comp_eq_senseRowStagr g hRD hL hSF hSN hUI q rank sn _,
      foldl_comp_eq g _ hdk _ _, hgl, hS]

theorem comp_eq_mergeSensesT {γ : Type _} (g : GraphState → γ)
    (hS : ∀ (t : GraphState) l, g { t with senseNodes := l } = g t)
    (hG : ∀ (t : GraphState) l, g { t with glossNodes := l } = g t)
    (hKD : ∀ (t : GraphState) l, g { t with kanjiDefines := l } = g t)
    (hRD : ∀ (t : GraphState) l, g { t with readingDefines := l } = g t)
    (hL : ∀ (t : GraphState) l, g { t with languages := l } = g t)
    (hSF : ∀ (t : GraphState) l, g { t with sourcedFrom := l } = g t)
    (hSN : ∀ (t : GraphState) l, g { t with sentences := l } = g t)
    (hUI : ∀ (t : GraphState) l, g { t with usedIn := l } = g t)
    (s : GraphState) (es : List Entry) :
    g (merge_and_return_senses_for_entries s es) = g s := by
  refine foldl_comp_eq g _ ?_ es s
  intro t e
  unfold mergeSensesForEntry
  split
  · exact foldl_comp_eq g _
      (fun t2 (p : Nat × Sense) =>
        comp_eq_mergeSenseRow g hS hG hKD hRD hL hSF hSN hUI e.ent_seq p.1 p.2 t2) _ t
  · rfl

theorem entries_mergeKanjiT (s : GraphState) (es : List Entry) :
    (merge_and_return_kanji_for_entries s es).entries = s.entries :=
  comp_eq_mergeKanjiT GraphState.entries (fun _ _ => rfl) s es

theorem entries_mergeReadingsT (s : GraphState) (es : List Entry) :
    (merge_and_return_readings_for_entries s es).entries = s.entries :=
  comp_eq_mergeReadingsT GraphState.entries (fun _ _ => rfl) (fun _ _ => rfl) s es

theorem entries_mergeSensesT (s : GraphState) (es : List Entry) :
    (merge_and_return_senses_for_entries s es).entries = s.entries :=
  comp_eq_mergeSensesT GraphState.entries (fun _ _ => rfl) (fun _ _ => rfl) (fun _ _ => rfl)
    (fun _ _ => rfl) (fun _ _ => rfl) (fun _ _ => rfl) (fun _ _ => rfl) (fun _ _ => rfl) s es

theorem kanjiNodes_mergeEntriesT (s : GraphState) (es : List Entry) :
    (merge_and_return_entries s es).kanjiNodes = s.kanjiNodes :=
  comp_eq_mergeEntriesT GraphState.kanjiNodes (fun _ _ => rfl) s es

theorem kanjiNodes_mergeReadingsT (s : GraphState) (es : List Entry) :
    (merge_and_return_readings_for_entries s es).kanjiNodes = s.kanjiNodes :=
  comp_eq_mergeReadingsT GraphState.kanjiNodes (fun _ _ => rfl) (fun _ _ => rfl) s es

theorem kanjiNodes_mergeSensesT (s : GraphState) (es : List Entry) :
    (merge_and_return_senses_for_entries s es).kanjiNodes = s.kanjiNodes :=
  comp_eq_mergeSensesT GraphState.kanjiNodes (fun _ _ => rfl) (fun _ _ => rfl) (fun _ _ => rfl)
    (fun _ _ => rfl) (fun _ _ => rfl) (fun _ _ => rfl) (fun _ _ => rfl) (fun _ _ => rfl) s es

theorem readingNodes_mergeEntriesT (s : GraphState) (es : List Entry) :
    (merge_and_return_entries s es).readingNodes = s.readingNodes :=
  comp_eq_mergeEntriesT GraphState.readingNodes (fun _ _ => rfl) s es

theorem readingNodes_mergeKanjiT (s : GraphState) (es : List Entry) :
    (merge_and_return_kanji_for_entries s es).readingNodes = s.readingNodes :=
  comp_eq_mergeKanjiT GraphState.readingNodes (fun _ _ => rfl) s es

theorem readingNodes_mergeSensesT (s : GraphState) (es : List Entry) :
    (merge_and_return_senses_for_entries s es).readingNodes = s.readingNodes :=
  comp_eq_mergeSensesT GraphState.readingNodes (fun _ _ => rfl) (fun _ _ => rfl) (fun _ _ => rfl)
    (fun _ _ => rfl) (fun _ _ => rfl) (fun _ _ => rfl) (fun _ _ => rfl) (fun _ _ => rfl) s es

theorem senseNodes_mergeEntriesT (s : GraphState) (es : List Entry) :
    (merge_and_return_entries s es).senseNodes = s.senseNodes :=
  comp_eq_mergeEntriesT GraphState.senseNodes (fun _ _ => rfl) s es

theorem senseNodes_mergeKanjiT (s : GraphState) (es : List Entry) :
    (merge_and_return_kanji_for_entries s es).senseNodes = s.senseNodes :=
  comp_eq_mergeKanjiT GraphState.senseNodes (fun _ _ => rfl) s es

theorem senseNodes_mergeReadingsT (s : GraphState) (es : List Entry) :
    (merge_and_return_readings_for_entries s es).senseNodes = s.senseNodes :=
  comp_eq_mergeReadingsT GraphState.senseNodes (fun _ _ => rfl) (fun _ _ => rfl) s es

theorem senseNodes_senseRowStagr (q rank : Nat) (sn : Sense) (s : GraphState) :
    (senseRowStagr q rank sn s).senseNodes = s.senseNodes :=
  comp_eq_senseRowStagr GraphState.senseNodes (fun _ _ => rfl) (fun _ _ => rfl) (fun _ _ => rfl)
    (fun _ _ => rfl) (fun _ _ => rfl) q rank sn s

theorem kanjiNodes_foldDefineKanji (q rank : Nat) (l : List Str) (s : GraphState) :
    (l.foldl (defineKanjiRow q rank) s).kanjiNodes = s.kanjiNodes := by
  refine foldl_comp_eq GraphState.kanjiNodes _ ?_ l s
  intro t keb
  unfold defineKanjiRow
  split <;> rfl

theorem readingNodes_foldDefineKanji (q rank : Nat) (l : List Str) (s : GraphState) :
    (l.foldl (defineKanjiRow q rank) s).readingNodes = s.readingNodes := by
  refine foldl_comp_eq GraphState.readingNodes _ ?_ l s
  intro t keb
  unfold defineKanjiRow
  split <;> rfl

theorem senseNodes_foldDefineKanji (q rank : Nat) (l : List Str) (s : GraphState) :
    (l.foldl (defineKanjiRow q rank) s).senseNodes = s.senseNodes := by
  refine foldl_comp_eq GraphState.senseNodes _ ?_ l s
  intro t keb
  unfold defineKanjiRow
  split <;> rfl

theorem readingNodes_foldDefineReading (q rank : Nat) (l : List Str) (s : GraphState) :
    (l.foldl (defineReadingRow q rank) s).readingNodes = s.readingNodes := by
  refine foldl_comp_eq GraphState.readingNodes _ ?_ l s
  intro t reb
  unfold defineReadingRow
  split <;> rfl

/-! ## Presence: each row makes its records present -/

theorem kanjiNodes_senseRowGloss (q rank : Nat) (og : Option Gloss) (t : GraphState) :
    (senseRowGloss q rank og t).kanjiNodes = t.kanjiNodes := by
  cases og <;> rfl

theorem readingNodes_senseRowGloss (q rank : Nat) (og : Option Gloss) (t : GraphState) :
    (senseRowGloss q rank og t).readingNodes = t.readingNodes := by
  cases og <;> rfl

theorem senseNodes_senseRowGloss (q rank : Nat) (og : Option Gloss) (t : GraphState) :
    (senseRowGloss q rank og t).senseNodes = t.senseNodes := by
  cases og <;> rfl

theorem hasEntry_after_entriesT {es : List Entry} {e : Entry} (he : e ∈ es) (s : GraphState) :
    hasEntryB (merge_and_return_entries s es) e.ent_seq = true := by
  unfold merge_and_return_entries
  refine foldl_establish _ (fun t => hasEntryB t e.ent_seq = true) (fun _ => True)
    (fun _ _ _ => trivial) ?_ he ?_ s trivial
  · intro t e2 h
    exact (subState_mergeEntryRow t e2).1 _ h
  · intro t _
    exact any_upsert_self _ (by simp [entryKeyP])

theorem hasKanji_after_kanjiT {es : List Entry} {e : Entry} {k : Kanji}
    (he : e ∈ es) (hk : k ∈ e.k_ele) (s : GraphState)
    (hent : hasEntryB s e.ent_seq = true) :
    hasKanjiB (merge_and_return_kanji_for_entries s es) e.ent_seq k.keb = true := by
  unfold merge_and_return_kanji_for_entries
  refine foldl_establish _ (fun t => hasKanjiB t e.ent_seq k.keb = true)
    (fun t => hasEntryB t e.ent_seq = true) ?_ ?_ he ?_ s hent
  · intro t e2 h
    exact (subState_mergeKanjiForEntry t e2).1 _ h
  · intro t e2 h
    exact (subState_mergeKanjiForEntry t e2).2.1 _ h
  · intro t ht
    unfold mergeKanjiForEntry
    rw [if_pos ht]
    refine foldl_establish _ (fun t2 => hasKanjiB t2 e.ent_seq k.keb = true) (fun _ => True)
      (fun _ _ _ => trivial) ?_ hk ?_ t trivial
    · intro t2 k2 h
      exact (subState_mergeKanjiRow e.ent_seq t2 k2).2.1 _ h
    · intro t2 _
      exact any_upsert_self _ (by simp [kanjiKeyP])

theorem hasReading_after_readingsT {es : List Entry} {e : Entry} {r : Reading}
    (he : e ∈ es) (hr : r ∈ e.r_ele) (s : GraphState)
    (hent : hasEntryB s e.ent_seq = true) :
    hasReadingB (merge_and_return_readings_for_entries s es) e.ent_seq r.reb = true := by
  unfold merge_and_return_readings_for_entries
  refine foldl_establish _ (fun t => hasReadingB t e.ent_seq r.reb = true)
    (fun t => hasEntryB t e.ent_seq = true) ?_ ?_ he ?_ s hent
  · intro t e2 h
    exact (subState_mergeReadingsForEntry t e2).1 _ h
  · intro t e2 h
    exact (subState_mergeReadingsForEntry t e2).2.2.1 _ h
  · intro t ht
    unfold mergeReadingsForEntry
    rw [if_pos ht]
    refine foldl_establish _ (fun t2 => hasReadingB t2 e.ent_seq r.reb = true) (fun _ => True)
      (fun _ _ _ => trivial) ?_ hr ?_ t trivial
    · intro t2 r2 h
      exact (subState_mergeReadingRow e.ent_seq t2 r2).2.2.1 _ h
    · intro t2 _
      simp only [mergeReadingRow]
      refine (subState_foldl _ (subState_mergeIsReadRow e.ent_seq r.reb) _ _).2.2.1 _ ?_
      exact any_upsert_self _ (by simp [readingKeyP])

theorem hasIsRead_after_readingsT {es : List Entry} {e : Entry} {r : Reading} {restr : Str}
    (he : e ∈ es) (hr : r ∈ e.r_ele) (hre : restr ∈ r.re_restr) (s : GraphState)
    (hent : hasEntryB s e.ent_seq = true) (hkan : hasKanjiB s e.ent_seq restr = true) :
    hasIsReadB (merge_and_return_readings_for_entries s es) e.ent_seq restr r.reb = true := by
  unfold merge_and_return_readings_for_entries
  refine foldl_establish _ (fun t => hasIsReadB t e.ent_seq restr r.reb = true)
    (fun t => hasEntryB t e.ent_seq = true ∧ hasKanjiB t e.ent_seq restr = true)
    ?_ ?_ he ?_ s ⟨hent, hkan⟩
  · intro t e2 h
    exact ⟨(subState_mergeReadingsForEntry t e2).1 _ h.1,
      (subState_mergeReadingsForEntry t e2).2.1 _ h.2⟩
  · intro t e2 h
    exact (subState_mergeReadingsForEntry t e2).2.2.2.1 _ h
  · intro t ht
    unfold mergeReadingsForEntry
    rw [if_pos ht.1]
    refine foldl_establish _ (fun t2 => hasIsReadB t2 e.ent_seq restr r.reb = true)
      (fun t2 => hasKanjiB t2 e.ent_seq restr = true) ?_ ?_ hr ?_ t ht.2
    · intro t2 r2 h
      exact (subState_mergeReadingRow e.ent_seq t2 r2).2.1 _ h
    · intro t2 r2 h
      exact (subState_mergeReadingRow e.ent_seq t2 r2).2.2.2.1 _ h
    · intro t2 ht2
      simp only [mergeReadingRow]
      refine foldl_establish _ (fun t3 => hasIsReadB t3 e.ent_seq restr r.reb = true)
        (fun t3 => hasKanjiB t3 e.ent_seq restr = true) ?_ ?_ hre ?_ _ ht2
      · intro t3 x h
        exact (subState_mergeIsReadRow e.ent_seq r.reb t3 x).2.1 _ h
      · intro t3 x h
        exact (subState_mergeIsReadRow e.ent_seq r.reb t3 x).2.2.2.1 _ h
      · intro t3 ht3
        unfold mergeIsReadRow
        rw [if_pos ht3]
        exact any_upsert_self _ (by simp [isReadKeyP])

theorem hasSense_after_row (q rank : Nat) (sn : Sense) (s : GraphState) :
    hasSenseB (mergeSenseRow q s rank sn) q rank = true := by
  simp only [mergeSenseRow]
  split
  · refine ((subState_senseRowGloss q rank sn.gloss _).trans
      (subState_foldl _ (subState_defineKanjiRow q rank) _ _)).2.2.2.2.1 _ ?_
    exact any_upsert_self _ (by simp [senseKeyP])
  · refine (((subState_senseRowGloss q rank sn.gloss _).trans
      (subState_foldl _ (subState_defineKanjiRow q rank) _ _)).trans
      (subState_senseRowStagr q rank sn _)).2.2.2.2.1 _ ?_
    exact any_upsert_self _ (by simp [senseKeyP])

theorem hasGloss_after_row (q rank : Nat) (sn : Sense) (g0 : Gloss) (s : GraphState)
    (hg : sn.gloss = some g0) :
    hasGlossB (mergeSenseRow q s rank sn) q rank = true := by
  simp only [mergeSenseRow]
  have hbase : ∀ t : GraphState, hasGlossB (senseRowGloss q rank sn.gloss t) q rank = true := by
    intro t
    rw [hg]
    exact any_upsert_self _ (by simp [glossKeyP])
  split
  · exact (subState_foldl _ (subState_defineKanjiRow q rank) _ _).2.2.2.2.2.1 _ (hbase _)
  · exact ((subState_foldl _ (subState_defineKanjiRow q rank) _ _).trans
      (subState_senseRowStagr q rank sn _)).2.2.2.2.2.1 _ (hbase _)

theorem hasKanjiDef_foldDK (q rank : Nat) (l : List Str) (keb : Str) (t : GraphState)
    (hk : keb ∈ l) (hkan : hasKanjiB t q keb = true) :
    hasKanjiDefB (l.foldl (defineKanjiRow q rank) t) q keb rank = true := by
  refine foldl_establish _ (fun u => hasKanjiDefB u q keb rank = true)
    (fun u => hasKanjiB u q keb = true) ?_ ?_ hk ?_ t hkan
  · intro u x h
    exact (subState_defineKanjiRow q rank u x).2.1 _ h
  · intro u x h
    exact (subState_defineKanjiRow q rank u x).2.2.2.2.2.2.1 _ h
  · intro u hu
    unfold defineKanjiRow
    rw [if_pos hu]
    exact any_upsert_self _ (by simp [definedByKeyP])

theorem hasKanjiDef_after_row (q rank : Nat) (sn : Sense) (keb : Str) (s : GraphState)
    (hk : keb ∈ sn.stagk) (hkan : hasKanjiB s q keb = true) :
    hasKanjiDefB (mergeSenseRow q s rank sn) q keb rank = true := by
  simp only [mergeSenseRow]
  split
  · refine hasKanjiDef_foldDK q rank sn.stagk keb _ hk ?_
    unfold hasKanjiB
    rw [kanjiNodes_senseRowGloss]
    exact hkan
  · refine (subState_senseRowStagr q rank sn _).2.2.2.2.2.2.1 _ ?_
    refine hasKanjiDef_foldDK q rank sn.stagk keb _ hk ?_
    unfold hasKanjiB
    rw [kanjiNodes_senseRowGloss]
    exact hkan

theorem hasReadingDef_foldDR (q rank : Nat) (l : List Str) (reb : Str) (t : GraphState)
    (hr : reb ∈ l) (hread : hasReadingB t q reb = true) :
    hasReadingDefB (l.foldl (defineReadingRow q rank) t) q reb rank = true := by
  refine foldl_establish _ (fun u => hasReadingDefB u q reb rank = true)
    (fun u => hasReadingB u q reb = true) ?_ ?_ hr ?_ t hread
  · intro u x h
    exact (subState_defineReadingRow q rank u x).2.2.1 _ h
  · intro u x h
    exact (subState_defineReadingRow q rank u x).2.2.2.2.2.2.2.1 _ h
  · intro u hu
    unfold defineReadingRow
    rw [if_pos hu]
    exact any_upsert_self _ (by simp [definedByKeyP])

theorem hasReadingDef_after_stagr (q rank : Nat) (sn : Sense) (reb : Str) (s : GraphState)
    (hr : reb ∈ sn.stagr) (hread : hasReadingB s q reb = true) :
    hasReadingDefB (senseRowStagr q rank sn s) q reb rank = true := by
  unfold senseRowStagr
  split
  · rename_i hcond
    simp only [Bool.and_eq_true, Bool.not_eq_true'] at hcond
    rw [List.any_eq_false] at hcond
    exact absurd hread (hcond.2 reb hr)
  · exact (subState_senseRowTail q rank sn _).2.2.2.2.2.2.2.1 _
      (hasReadingDef_foldDR q rank sn.stagr reb _ hr hread)

theorem hasReadingDef_after_row (q rank : Nat) (sn : Sense) (reb : Str) (s : GraphState)
    (hr : reb ∈ sn.stagr) (hread : hasReadingB s q reb = true)
    (hsurvk : sn.stagk = [] ∨ ∃ keb ∈ sn.stagk, hasKanjiB s q keb = true) :
    hasReadingDefB (mergeSenseRow q s rank sn) q reb rank = true := by
  simp only [mergeSenseRow]
  split
  · rename_i hcond
    simp only [Bool.and_eq_true, Bool.not_eq_true'] at hcond
    rcases hsurvk with hemp | ⟨keb, hkb, hkan⟩
    · rw [hemp] at hcond
      exact absurd hcond.1 (by simp)
    · rw [List.any_eq_false] at hcond
      refine absurd ?_ (hcond.2 keb hkb)
      unfold hasKanjiB
      rw [kanjiNodes_senseRowGloss]
      exact hkan
  · refine hasReadingDef_after_stagr q rank sn reb _ hr ?_
    unfold hasReadingB
    rw [readingNodes_foldDefineKanji, readingNodes_senseRowGloss]
    exact hread

theorem hasLang_after_tail (q rank : Nat) (sn : Sense) (ls : Lsource) (s : GraphState)
    (hl : ls ∈ sn.lsource) :
    hasLangB (senseRowTail q rank sn s) ls.lang.name = true := by
  unfold senseRowTail
  refine (subState_foldl _ (subState_mergeExampleRow q rank) _ _).2.2.2.2.2.2.2.2.1 _ ?_
  refine foldl_establish _ (fun u => hasLangB u ls.lang.name = true) (fun _ => True)
    (fun _ _ _ => trivial) ?_ hl ?_ s trivial
  · intro u x h
    exact (subState_mergeLsourceRow q rank u x).2.2.2.2.2.2.2.2.1 _ h
  · intro u _
    exact any_upsert_self _ (by simp [langKeyP])

theorem hasSourcedFrom_after_tail (q rank : Nat) (sn : Sense) (ls : Lsource) (s : GraphState)
    (hl : ls ∈ sn.lsource) :
    hasSourcedFromB (senseRowTail q rank sn s) q rank ls.lang.name = true := by
  unfold senseRowTail
  refine (subState_foldl _ (subState_mergeExampleRow q rank) _ _).2.2.2.2.2.2.2.2.2.1 _ ?_
  refine foldl_establish _ (fun u => hasSourcedFromB u q rank ls.lang.name = true) (fun _ => True)
    (fun _ _ _ => trivial) ?_ hl ?_ s trivial
  · intro u x h
    exact (subState_mergeLsourceRow q rank u x).2.2.2.2.2.2.2.2.2.1 _ h
  · intro u _
    exact any_upsert_self _ (by simp [sourcedFromKeyP])

theorem hasSentence_after_tail (q rank : Nat) (sn : Sense) (ex : Example) (s : GraphState)
    (hex : ex ∈ sn.example_) :
    hasSentenceB (senseRowTail q rank sn s) ex.sentence.exsrc_type ex.sentence.ex_srce = true := by
  unfold senseRowTail
  refine foldl_establish _
    (fun u => hasSentenceB u ex.sentence.exsrc_type ex.sentence.ex_srce = true) (fun _ => True)
    (fun _ _ _ => trivial) ?_ hex ?_ _ trivial
  · intro u x h
    exact (subState_mergeExampleRow q rank u x).2.2.2.2.2.2.2.2.2.2.1 _ h
  · intro u _
    exact any_upsert_self _ (by simp [sentenceKeyP])

theorem hasUsedIn_after_tail (q rank : Nat) (sn : Sense) (ex : Example) (s : GraphState)
    (hex : ex ∈ sn.example_) :
    hasUsedInB (senseRowTail q rank sn s) q rank ex.sentence.exsrc_type ex.sentence.ex_srce
      = true := by
  unfold senseRowTail
  refine foldl_establish _
    (fun u => hasUsedInB u q rank ex.sentence.exsrc_type ex.sentence.ex_srce = true)
    (fun _ => True) (fun _ _ _ => trivial) ?_ hex ?_ _ trivial
  · intro u x h
    exact (subState_mergeExampleRow q rank u x).2.2.2.2.2.2.2.2.2.2.2.1 _ h
  · intro u _
    exact any_upsert_self _ (by simp [usedInKeyP])

/-- When both restriction blocks keep the Cypher row alive, the row result
is the tail applied to some intermediate state; any property every tail
result has, the row result has. -/
theorem senseRow_reaches_tail (q rank : Nat) (sn : Sense) (s : GraphState)
    (P : GraphState → Prop)
    (hsurvk : sn.stagk = [] ∨ ∃ keb ∈ sn.stagk, hasKanjiB s q keb = true)
    (hsurvr : sn.stagr = [] ∨ ∃ reb ∈ sn.stagr, hasReadingB s q reb = true)
    (hP : ∀ t, P (senseRowTail q rank sn t)) :
    P (mergeSenseRow q s rank sn) := by
  simp only [mergeSenseRow]
  split
  · rename_i hcond
    simp only [Bool.and_eq_true, Bool.not_eq_true'] at hcond
    rcases hsurvk with hemp | ⟨keb, hkb, hkan⟩
    · rw [hemp] at hcond
      exact absurd hcond.1 (by simp)
    · rw [List.any_eq_false] at hcond
      refine absurd ?_ (hcond.2 keb hkb)
      unfold hasKanjiB
      rw [kanjiNodes_senseRowGloss]
      exact hkan
  · unfold senseRowStagr
    split
    · rename_i hcond
      simp only [Bool.and_eq_true, Bool.not_eq_true'] at hcond
      rcases hsurvr with hemp | ⟨reb, hrb, hrd⟩
      · rw [hemp] at hcond
        exact absurd hcond.1 (by simp)
      · rw [List.any_eq_false] at hcond
        refine absurd ?_ (hcond.2 reb hrb)
        unfold hasReadingB
        rw [readingNodes_foldDefineKanji, readingNodes_senseRowGloss]
        exact hrd
    · exact hP _

theorem survK_mono {l : List Str} {q : Nat} {t u : GraphState} (hsub : SubState t u)
    (h : l = [] ∨ ∃ keb ∈ l, hasKanjiB t q keb = true) :
    l = [] ∨ ∃ keb ∈ l, hasKanjiB u q keb = true := by
  rcases h with h | ⟨keb, hm, hk⟩
  · exact Or.inl h
  · exact Or.inr ⟨keb, hm, hsub.2.1 _ hk⟩

theorem survR_mono {l : List Str} {q : Nat} {t u : GraphState} (hsub : SubState t u)
    (h : l = [] ∨ ∃ reb ∈ l, hasReadingB t q reb = true) :
    l = [] ∨ ∃ reb ∈ l, hasReadingB u q reb = true := by
  rcases h with h | ⟨reb, hm, hr⟩
  · exact Or.inl h
  · exact Or.inr ⟨reb, hm, hsub.2.2.1 _ hr⟩

theorem hasSense_after_sensesT {es : List Entry} {e : Entry} {rank : Nat} {sn : Sense}
    (he : e ∈ es) (hpair : (rank, sn) ∈ senseRankPairs e.sense) (s : GraphState)
    (hent : hasEntryB s e.ent_seq = true) :
    hasSenseB (merge_and_return_senses_for_entries s es) e.ent_seq rank = true := by
  unfold merge_and_return_senses_for_entries
  refine foldl_establish _ (fun t => hasSenseB t e.ent_seq rank = true)
    (fun t => hasEntryB t e.ent_seq = true) ?_ ?_ he ?_ s hent
  · intro t e2 h
    exact (subState_mergeSensesForEntry t e2).1 _ h
  · intro t e2 h
    exact (subState_mergeSensesForEntry t e2).2.2.2.2.1 _ h
  · intro t ht
    unfold mergeSensesForEntry
    rw [if_pos ht]
    refine foldl_establish _ (fun t2 => hasSenseB t2 e.ent_seq rank = true) (fun _ => True)
      (fun _ _ _ => trivial) ?_ hpair ?_ t trivial
    · intro t2 p h
      exact (subState_mergeSenseRow e.ent_seq t2 p.1 p.2).2.2.2.2.1 _ h
    · intro t2 _
      exact hasSense_after_row e.ent_seq rank sn t2

theorem hasGloss_after_sensesT {es : List Entry} {e : Entry} {rank : Nat} {sn : Sense}
    {g0 : Gloss} (he : e ∈ es) (hpair : (rank, sn) ∈ senseRankPairs e.sense)
    (hg : sn.gloss = some g0) (s : GraphState)
    (hent : hasEntryB s e.ent_seq = true) :
    hasGlossB (merge_and_return_senses_for_entries s es) e.ent_seq rank = true := by
  unfold merge_and_return_senses_for_entries
  refine foldl_establish _ (fun t => hasGlossB t e.ent_seq rank = true)
    (fun t => hasEntryB t e.ent_seq = true) ?_ ?_ he ?_ s hent
  · intro t e2 h
    exact (subState_mergeSensesForEntry t e2).1 _ h
  · intro t e2 h
    exact (subState_mergeSensesForEntry t e2).2.2.2.2.2.1 _ h
  · intro t ht
    unfold mergeSensesForEntry
    rw [if_pos ht]
    refine foldl_establish _ (fun t2 => hasGlossB t2 e.ent_seq rank = true) (fun _ => True)
      (fun _ _ _ => trivial) ?_ hpair ?_ t trivial
    · intro t2 p h
      exact (subState_mergeSenseRow e.ent_seq t2 p.1 p.2).2.2.2.2.2.1 _ h
    · intro t2 _
      exact hasGloss_after_row e.ent_seq rank sn g0 t2 hg

theorem hasKanjiDef_after_sensesT {es : List Entry} {e : Entry} {rank : Nat} {sn : Sense}
    {keb : Str} (he : e ∈ es) (hpair : (rank, sn) ∈ senseRankPairs e.sense)
    (hk : keb ∈ sn.stagk) (s : GraphState)
    (hent : hasEntryB s e.ent_seq = true) (hkan : hasKanjiB s e.ent_seq keb = true) :
    hasKanjiDefB (merge_and_return_senses_for_entries s es) e.ent_seq keb rank = true := by
  unfold merge_and_return_senses_for_entries
  refine foldl_establish _ (fun t => hasKanjiDefB t e.ent_seq keb rank = true)
    (fun t => hasEntryB t e.ent_seq = true ∧ hasKanjiB t e.ent_seq keb = true)
    ?_ ?_ he ?_ s ⟨hent, hkan⟩
  · intro t e2 h
    exact ⟨(subState_mergeSensesForEntry t e2).1 _ h.1,
      (subState_mergeSensesForEntry t e2).2.1 _ h.2⟩
  · intro t e2 h
    exact (subState_mergeSensesForEntry t e2).2.2.2.2.2.2.1 _ h
  · intro t ht
    unfold mergeSensesForEntry
    rw [if_pos ht.1]
    refine foldl_establish _ (fun t2 => hasKanjiDefB t2 e.ent_seq keb rank = true)
      (fun t2 => hasKanjiB t2 e.ent_seq keb = true) ?_ ?_ hpair ?_ t ht.2
    · intro t2 p h
      exact (subState_mergeSenseRow e.ent_seq t2 p.1 p.2).2.1 _ h
    · intro t2 p h
      exact (subState_mergeSenseRow e.ent_seq t2 p.1 p.2).2.2.2.2.2.2.1 _ h
    · intro t2 ht2
      exact hasKanjiDef_after_row e.ent_seq rank sn keb t2 hk ht2

theorem hasReadingDef_after_sensesT {es : List Entry} {e : Entry} {rank : Nat} {sn : Sense}
    {reb : Str} (he : e ∈ es) (hpair : (rank, sn) ∈ senseRankPairs e.sense)
    (hr : reb ∈ sn.stagr) (s : GraphState)
    (hent : hasEntryB s e.ent_seq = true) (hread : hasReadingB s e.ent_seq reb = true)
    (hsurvk : sn.stagk = [] ∨ ∃ keb ∈ sn.stagk, hasKanjiB s e.ent_seq keb = true) :
    hasReadingDefB (merge_and_return_senses_for_entries s es) e.ent_seq reb rank = true := by
  unfold merge_and_return_senses_for_entries
  refine foldl_establish _ (fun t => hasReadingDefB t e.ent_seq reb rank = true)
    (fun t => (hasEntryB t e.ent_seq = true ∧ hasReadingB t e.ent_seq reb = true) ∧
      (sn.stagk = [] ∨ ∃ keb ∈ sn.stagk, hasKanjiB t e.ent_seq keb = true))
    ?_ ?_ he ?_ s ⟨⟨hent, hread⟩, hsurvk⟩
  · intro t e2 h
    exact ⟨⟨(subState_mergeSensesForEntry t e2).1 _ h.1.1,
      (subState_mergeSensesForEntry t e2).2.2.1 _ h.1.2⟩,
      survK_mono (subState_mergeSensesForEntry t e2) h.2⟩
  · intro t e2 h
    exact (subState_mergeSensesForEntry t e2).2.2.2.2.2.2.2.1 _ h
  · intro t ht
    unfold mergeSensesForEntry
    rw [if_pos ht.1.1]
    refine foldl_establish _ (fun t2 => hasReadingDefB t2 e.ent_seq reb rank = true)
      (fun t2 => hasReadingB t2 e.ent_seq reb = true ∧
        (sn.stagk = [] ∨ ∃ keb ∈ sn.stagk, hasKanjiB t2 e.ent_seq keb = true))
      ?_ ?_ hpair ?_ t ⟨ht.1.2, ht.2⟩
    · intro t2 p h
      exact ⟨(subState_mergeSenseRow e.ent_seq t2 p.1 p.2).2.2.1 _ h.1,
        survK_mono (subState_mergeSenseRow e.ent_seq t2 p.1 p.2) h.2⟩
    · intro t2 p h
      exact (subState_mergeSenseRow e.ent_seq t2 p.1 p.2).2.2.2.2.2.2.2.1 _ h
    · intro t2 ht2
      exact hasReadingDef_after_row e.ent_seq rank sn reb t2 hr ht2.1 ht2.2

theorem senseRow_tail_target {es : List Entry} {e : Entry} {rank : Nat} {sn : Sense}
    (he : e ∈ es) (hpair : (rank, sn) ∈ senseRankPairs e.sense)
    (P : GraphState → Bool)
    (hmono : ∀ t u : GraphState, SubState t u → P t = true → P u = true)
    (htail : ∀ t : GraphState, P (senseRowTail e.ent_seq rank sn t) = true)
    (s : GraphState)
    (hent : hasEntryB s e.ent_seq = true)
    (hsurvk : sn.stagk = [] ∨ ∃ keb ∈ sn.stagk, hasKanjiB s e.ent_seq keb = true)
    (hsurvr : sn.stagr = [] ∨ ∃ reb ∈ sn.stagr, hasReadingB s e.ent_seq reb = true) :
    P (merge_and_return_senses_for_entries s es) = true := by
  unfold merge_and_return_senses_for_entries
  refine foldl_establish _ (fun t => P t = true)
    (fun t => hasEntryB t e.ent_seq = true ∧
      (sn.stagk = [] ∨ ∃ keb ∈ sn.stagk, hasKanjiB t e.ent_seq keb = true) ∧
      (sn.stagr = [] ∨ ∃ reb ∈ sn.stagr, hasReadingB t e.ent_seq reb = true))
    ?_ ?_ he ?_ s ⟨hent, hsurvk, hsurvr⟩
  · intro t e2 h
    exact ⟨(subState_mergeSensesForEntry t e2).1 _ h.1,
      survK_mono (subState_mergeSensesForEntry t e2) h.2.1,
      survR_mono (subState_mergeSensesForEntry t e2) h.2.2⟩
  · intro t e2 h
    exact hmono t _ (subState_mergeSensesForEntry t e2) h
  · intro t ht
    unfold mergeSensesForEntry
    rw [if_pos ht.1]
    refine foldl_establish _ (fun t2 => P t2 = true)
      (fun t2 => (sn.stagk = [] ∨ ∃ keb ∈ sn.stagk, hasKanjiB t2 e.ent_seq keb = true) ∧
        (sn.stagr = [] ∨ ∃ reb ∈ sn.stagr, hasReadingB t2 e.ent_seq reb = true))
      ?_ ?_ hpair ?_ t ⟨ht.2.1, ht.2.2⟩
    · intro t2 p h
      exact ⟨survK_mono (subState_mergeSenseRow e.ent_seq t2 p.1 p.2) h.1,
        survR_mono (subState_mergeSenseRow e.ent_seq t2 p.1 p.2) h.2⟩
    · intro t2 p h
      exact hmono t2 _ (subState_mergeSenseRow e.ent_seq t2 p.1 p.2) h
    · intro t2 ht2
      exact senseRow_reaches_tail e.ent_seq rank sn t2 (fun u => P u = true)
        ht2.1 ht2.2 htail

/-! ## Presence at the end of one batch and of the whole pipeline -/

theorem hasEntry_after_loadBatch {b : List Entry} {e : Entry} (he : e ∈ b) (s : GraphState) :
    hasEntryB (loadBatch s b) e.ent_seq = true := by
  unfold loadBatch
  refine (((subState_mergeKanjiT _ b).trans (subState_mergeReadingsT _ b)).trans
    (subState_mergeSensesT _ b)).1 _ ?_
  exact hasEntry_after_entriesT he s

theorem hasKanji_after_loadBatch {b : List Entry} {e : Entry} {k : Kanji}
    (he : e ∈ b) (hk : k ∈ e.k_ele) (s : GraphState) :
    hasKanjiB (loadBatch s b) e.ent_seq k.keb = true := by
  unfold loadBatch
  refine ((subState_mergeReadingsT _ b).trans (subState_mergeSensesT _ b)).2.1 _ ?_
  exact hasKanji_after_kanjiT he hk _ (hasEntry_after_entriesT he s)

theorem hasKanji_after_loadBatch_keb {b : List Entry} {e : Entry} {keb : Str}
    (he : e ∈ b) (hkeb : keb ∈ entryKebs e) (s : GraphState) :
    hasKanjiB (loadBatch s b) e.ent_seq keb = true := by
  obtain ⟨k, hkm, rfl⟩ := List.mem_map.mp hkeb
  exact hasKanji_after_loadBatch he hkm s

theorem hasReading_after_loadBatch {b : List Entry} {e : Entry} {r : Reading}
    (he : e ∈ b) (hr : r ∈ e.r_ele) (s : GraphState) :
    hasReadingB (loadBatch s b) e.ent_seq r.reb = true := by
  unfold loadBatch
  refine (subState_mergeSensesT _ b).2.2.1 _ ?_
  refine hasReading_after_readingsT he hr _ ?_
  exact (subState_mergeKanjiT _ b).1 _ (hasEntry_after_entriesT he s)

theorem hasReading_after_loadBatch_reb {b : List Entry} {e : Entry} {reb : Str}
    (he : e ∈ b) (hreb : reb ∈ entryRebs e) (s : GraphState) :
    hasReadingB (loadBatch s b) e.ent_seq reb = true := by
  obtain ⟨r, hrm, rfl⟩ := List.mem_map.mp hreb
  exact hasReading_after_loadBatch he hrm s

theorem hasIsRead_after_loadBatch {b : List Entry} {e : Entry} {r : Reading} {restr : Str}
    (he : e ∈ b) (hr : r ∈ e.r_ele) (hre : restr ∈ r.re_restr)
    (hkeb : restr ∈ entryKebs e) (s : GraphState) :
    hasIsReadB (loadBatch s b) e.ent_seq restr r.reb = true := by
  unfold loadBatch
  refine (subState_mergeSensesT _ b).2.2.2.1 _ ?_
  obtain ⟨k, hkm, hkk⟩ := List.mem_map.mp hkeb
  refine hasIsRead_after_readingsT he hr hre _ ?_ ?_
  · exact (subState_mergeKanjiT _ b).1 _ (hasEntry_after_entriesT he s)
  · have hh := hasKanji_after_kanjiT he hkm _ (hasEntry_after_entriesT he s)
    rw [hkk] at hh
    exact hh

theorem hasSense_after_loadBatch {b : List Entry} {e : Entry} {rank : Nat} {sn : Sense}
    (he : e ∈ b) (hpair : (rank, sn) ∈ senseRankPairs e.sense) (s : GraphState) :
    hasSenseB (loadBatch s b) e.ent_seq rank = true := by
  unfold loadBatch
  refine hasSense_after_sensesT he hpair _ ?_
  refine ((subState_mergeKanjiT _ b).trans (subState_mergeReadingsT _ b)).1 _ ?_
  exact hasEntry_after_entriesT he s

theorem hasGloss_after_loadBatch {b : List Entry} {e : Entry} {rank : Nat} {sn : Sense}
    {g0 : Gloss} (he : e ∈ b) (hpair : (rank, sn) ∈ senseRankPairs e.sense)
    (hg : sn.gloss = some g0) (s : GraphState) :
    hasGlossB (loadBatch s b) e.ent_seq rank = true := by
  unfold loadBatch
  refine hasGloss_after_sensesT he hpair hg _ ?_
  refine ((subState_mergeKanjiT _ b).trans (subState_mergeReadingsT _ b)).1 _ ?_
  exact hasEntry_after_entriesT he s

theorem hasKanjiDef_after_loadBatch {b : List Entry} {e : Entry} {rank : Nat} {sn : Sense}
    {keb : Str} (he : e ∈ b) (hpair : (rank, sn) ∈ senseRankPairs e.sense)
    (hk : keb ∈ sn.stagk) (hkeb : keb ∈ entryKebs e) (s : GraphState) :
    hasKanjiDefB (loadBatch s b) e.ent_seq keb rank = true := by
  unfold loadBatch
  refine hasKanjiDef_after_sensesT he hpair hk _ ?_ ?_
  · refine ((subState_mergeKanjiT _ b).trans (subState_mergeReadingsT _ b)).1 _ ?_
    exact hasEntry_after_entriesT he s
  · obtain ⟨k, hkm, hkk⟩ := List.mem_map.mp hkeb
    refine (subState_mergeReadingsT _ b).2.1 _ ?_
    have hh := hasKanji_after_kanjiT he hkm _ (hasEntry_after_entriesT he s)
    rw [hkk] at hh
    exact hh

theorem survK_after_readings {b : List Entry} {e : Entry} {l : List Str}
    (he : e ∈ b) (hsk : l = [] ∨ ∃ keb ∈ l, keb ∈ entryKebs e) (s : GraphState) :
    l = [] ∨ ∃ keb ∈ l, hasKanjiB
      (merge_and_return_readings_for_entries
        (merge_and_return_kanji_for_entries (merge_and_return_entries s b) b) b)
      e.ent_seq keb = true := by
  rcases hsk with h | ⟨keb, hm, hkeb⟩
  · exact Or.inl h
  · right
    refine ⟨keb, hm, ?_⟩
    obtain ⟨k, hkm, hkk⟩ := List.mem_map.mp hkeb
    refine (subState_mergeReadingsT _ b).2.1 _ ?_
    have hh := hasKanji_after_kanjiT he hkm _ (hasEntry_after_entriesT he s)
    rw [hkk] at hh
    exact hh

theorem survR_after_readings {b : List Entry} {e : Entry} {l : List Str}
    (he : e ∈ b) (hsr : l = [] ∨ ∃ reb ∈ l, reb ∈ entryRebs e) (s : GraphState) :
    l = [] ∨ ∃ reb ∈ l, hasReadingB
      (merge_and_return_readings_for_entries
        (merge_and_return_kanji_for_entries (merge_and_return_entries s b) b) b)
      e.ent_seq reb = true := by
  rcases hsr with h | ⟨reb, hm, hreb⟩
  · exact Or.inl h
  · right
    refine ⟨reb, hm, ?_⟩
    obtain ⟨r, hrm, hrr⟩ := List.mem_map.mp hreb
    have hh := hasReading_after_readingsT he hrm _
      ((subState_mergeKanjiT _ b).1 _ (hasEntry_after_entriesT he s))
    rw [hrr] at hh
    exact hh

theorem hasReadingDef_after_loadBatch {b : List Entry} {e : Entry} {rank : Nat} {sn : Sense}
    {reb : Str} (he : e ∈ b) (hpair : (rank, sn) ∈ senseRankPairs e.sense)
    (hr : reb ∈ sn.stagr) (hreb : reb ∈ entryRebs e)
    (hsk : sn.stagk = [] ∨ ∃ keb ∈ sn.stagk, keb ∈ entryKebs e) (s : GraphState) :
    hasReadingDefB (loadBatch s b) e.ent_seq reb rank = true := by
  unfold loadBatch
  refine hasReadingDef_after_sensesT he hpair hr _ ?_ ?_ ?_
  · refine ((subState_mergeKanjiT _ b).trans (subState_mergeReadingsT _ b)).1 _ ?_
    exact hasEntry_after_entriesT he s
  · obtain ⟨r, hrm, hrr⟩ := List.mem_map.mp hreb
    have hh := hasReading_after_readingsT he hrm _
      ((subState_mergeKanjiT _ b).1 _ (hasEntry_after_entriesT he s))
    rw [hrr] at hh
    exact hh
  · exact survK_after_readings he hsk s

theorem tail_target_after_loadBatch {b : List Entry} {e : Entry} {rank : Nat} {sn : Sense}
    (he : e ∈ b) (hpair : (rank, sn) ∈ senseRankPairs e.sense)
    (P : GraphState → Bool)
    (hmono : ∀ t u : GraphState, SubState t u → P t = true → P u = true)
    (htail : ∀ t : GraphState, P (senseRowTail e.ent_seq rank sn t) = true)
    (hsk : sn.stagk = [] ∨ ∃ keb ∈ sn.stagk, keb ∈ entryKebs e)
    (hsr : sn.stagr = [] ∨ ∃ reb ∈ sn.stagr, reb ∈ entryRebs e) (s : GraphState) :
    P (loadBatch s b) = true := by
  unfold loadBatch
  refine senseRow_tail_target he hpair P hmono htail _ ?_ ?_ ?_
  · refine ((subState_mergeKanjiT _ b).trans (subState_mergeReadingsT _ b)).1 _ ?_
    exact hasEntry_after_entriesT he s
  · exact survK_after_readings he hsk s
  · exact survR_after_readings he hsr s

/-- Presence at the end of the pipeline: any monotone property
established by the batch containing `e` holds of the final store. -/
theorem pres_runPipeline (P : GraphState → Prop) {n : Nat} {corpus : List Entry} {e : Entry}
    (hn : 0 < n) (he : e ∈ corpus)
    (hmono : ∀ t u : GraphState, SubState t u → P t → P u)
    (hbatch : ∀ (b : List Entry) (t : GraphState), e ∈ b → P (loadBatch t b))
    (s0 : GraphState) :
    P (runPipeline n corpus s0) := by
  obtain ⟨m, rfl⟩ : ∃ m, n = m + 1 := ⟨n - 1, by omega⟩
  have hmem : e ∈ (batchesOf corpus (m + 1)).flatten := by
    rw [grouper_join]
    exact he
  obtain ⟨b, hb, heb⟩ := List.mem_flatten.mp hmem
  unfold runPipeline
  refine foldl_establish _ P (fun _ => True) (fun _ _ _ => trivial)
    (fun t b2 h => hmono _ _ (subState_loadBatch t b2) h) hb
    (fun t _ => hbatch b t heb) s0 trivial

/-! ## Soundness: kanji and reading nodes come only from the corpus -/

theorem kanji_sound_kanjiT {q : Nat} {keb : Str} (s : GraphState) (es : List Entry)
    (h : hasKanjiB (merge_and_return_kanji_for_entries s es) q keb = true) :
    hasKanjiB s q keb = true ∨ ∃ e ∈ es, e.ent_seq = q ∧ keb ∈ entryKebs e := by
  unfold merge_and_return_kanji_for_entries at h
  refine foldl_sound _ (fun t => hasKanjiB t q keb = true)
    (fun e => e.ent_seq = q ∧ keb ∈ entryKebs e) ?_ es s h
  intro t e hstep
  unfold mergeKanjiForEntry at hstep
  by_cases hg : hasEntryB t e.ent_seq = true
  · rw [if_pos hg] at hstep
    have hinner : ∀ (u : GraphState) (k : Kanji),
        hasKanjiB (mergeKanjiRow e.ent_seq u k) q keb = true →
        hasKanjiB u q keb = true ∨ (e.ent_seq = q ∧ k.keb = keb) := by
      intro u k hu
      unfold mergeKanjiRow hasKanjiB at hu
      rcases any_of_upsert hu with h1 | h2
      · exact Or.inl h1
      · right
        simp [kanjiKeyP] at h2
        exact h2
    rcases foldl_sound _ (fun u => hasKanjiB u q keb = true)
      (fun k => e.ent_seq = q ∧ k.keb = keb) hinner e.k_ele t hstep with h1 | ⟨k, hk, h2⟩
    · exact Or.inl h1
    · refine Or.inr ⟨h2.1, ?_⟩
      rw [← h2.2]
      exact List.mem_map_of_mem _ hk
  · rw [if_neg hg] at hstep
    exact Or.inl hstep

theorem reading_sound_readingsT {q : Nat} {reb : Str} (s : GraphState) (es : List Entry)
    (h : hasReadingB (merge_and_return_readings_for_entries s es) q reb = true) :
    hasReadingB s q reb = true ∨ ∃ e ∈ es, e.ent_seq = q ∧ reb ∈ entryRebs e := by
  unfold merge_and_return_readings_for_entries at h
  refine foldl_sound _ (fun t => hasReadingB t q reb = true)
    (fun e => e.ent_seq = q ∧ reb ∈ entryRebs e) ?_ es s h
  intro t e hstep
  unfold mergeReadingsForEntry at hstep
  by_cases hg : hasEntryB t e.ent_seq = true
  · rw [if_pos hg] at hstep
    have hinner : ∀ (u : GraphState) (r : Reading),
        hasReadingB (mergeReadingRow e.ent_seq u r) q reb = true →
        hasReadingB u q reb = true ∨ (e.ent_seq = q ∧ r.reb = reb) := by
      intro u r hu
      unfold hasReadingB at hu
      rw [show (mergeReadingRow e.ent_seq u r).readingNodes =
        (upsert (readingKeyP e.ent_seq r.reb)
          ⟨e.ent_seq, readingLabel, r.reb, r.re_nokanji, r.re_inf, r.re_pri⟩
          u.readingNodes) from ?_] at hu
      · rcases any_of_upsert hu with h1 | h2
        · exact Or.inl h1
        · right
          simp [readingKeyP] at h2
          exact h2
      · simp only [mergeReadingRow]
        refine foldl_comp_eq GraphState.readingNodes _ ?_ _ _
        intro t3 restr
        unfold mergeIsReadRow
        split <;> rfl
    rcases foldl_sound _ (fun u => hasReadingB u q reb = true)
      (fun r => e.ent_seq = q ∧ r.reb = reb) hinner e.r_ele t hstep with h1 | ⟨r, hr, h2⟩
    · exact Or.inl h1
    · refine Or.inr ⟨h2.1, ?_⟩
      rw [← h2.2]
      exact List.mem_map_of_mem _ hr
  · rw [if_neg hg] at hstep
    exact Or.inl hstep

theorem grouper_zero (l : List α) : grouper l 0 = [] := by
  cases l <;> rfl

theorem runPipeline_zero (corpus : List Entry) (s : GraphState) :
    runPipeline 0 corpus s = s := by
  unfold runPipeline batchesOf
  rw [grouper_zero]
  rfl

theorem kanji_sound_loadBatch {q : Nat} {keb : Str} (s : GraphState) (b : List Entry)
    (h : hasKanjiB (loadBatch s b) q keb = true) :
    hasKanjiB s q keb = true ∨ ∃ e ∈ b, e.ent_seq = q ∧ keb ∈ entryKebs e := by
  unfold loadBatch at h
  unfold hasKanjiB at h
  rw [kanjiNodes_mergeSensesT, kanjiNodes_mergeReadingsT] at h
  rcases kanji_sound_kanjiT _ b h with h1 | h2
  · unfold hasKanjiB at h1
    rw [kanjiNodes_mergeEntriesT] at h1
    exact Or.inl h1
  · exact Or.inr h2

theorem reading_sound_loadBatch {q : Nat} {reb : Str} (s : GraphState) (b : List Entry)
    (h : hasReadingB (loadBatch s b) q reb = true) :
    hasReadingB s q reb = true ∨ ∃ e ∈ b, e.ent_seq = q ∧ reb ∈ entryRebs e := by
  unfold loadBatch at h
  unfold hasReadingB at h
  rw [readingNodes_mergeSensesT] at h
  rcases reading_sound_readingsT _ b h with h1 | h2
  · unfold hasReadingB at h1
    rw [readingNodes_mergeKanjiT, readingNodes_mergeEntriesT] at h1
    exact Or.inl h1
  · exact Or.inr h2

theorem kanji_sound_runPipeline {n : Nat} {corpus : List Entry} {q : Nat} {keb : Str}
    (h : hasKanjiB (runPipeline n corpus emptyGraph) q keb = true) :
    ∃ e ∈ corpus, e.ent_seq = q ∧ keb ∈ entryKebs e := by
  rcases Nat.eq_zero_or_pos n with rfl | hn
  · rw [runPipeline_zero] at h
    exact absurd h (by simp [hasKanjiB, emptyGraph])
  obtain ⟨m, rfl⟩ : ∃ m, n = m + 1 := ⟨n - 1, by omega⟩
  unfold runPipeline at h
  rcases foldl_sound _ (fun t => hasKanjiB t q keb = true)
    (fun b => ∃ e ∈ b, e.ent_seq = q ∧ keb ∈ entryKebs e)
    (fun t b hb => kanji_sound_loadBatch t b hb) _ emptyGraph h with h1 | ⟨b, hb, e, heb, hp⟩
  · exact absurd h1 (by simp [hasKanjiB, emptyGraph])
  · refine ⟨e, ?_, hp⟩
    rw [← grouper_join m corpus]
    exact List.mem_flatten.mpr ⟨b, hb, heb⟩

theorem reading_sound_runPipeline {n : Nat} {corpus : List Entry} {q : Nat} {reb : Str}
    (h : hasReadingB (runPipeline n corpus emptyGraph) q reb = true) :
    ∃ e ∈ corpus, e.ent_seq = q ∧ reb ∈ entryRebs e := by
  rcases Nat.eq_zero_or_pos n with rfl | hn
  · rw [runPipeline_zero] at h
    exact absurd h (by simp [hasReadingB, emptyGraph])
  obtain ⟨m, rfl⟩ : ∃ m, n = m + 1 := ⟨n - 1, by omega⟩
  unfold runPipeline at h
  rcases foldl_sound _ (fun t => hasReadingB t q reb = true)
    (fun b => ∃ e ∈ b, e.ent_seq = q ∧ reb ∈ entryRebs e)
    (fun t b hb => reading_sound_loadBatch t b hb) _ emptyGraph h with h1 | ⟨b, hb, e, heb, hp⟩
  · exact absurd h1 (by simp [hasReadingB, emptyGraph])
  · refine ⟨e, ?_, hp⟩
    rw [← grouper_join m corpus]
    exact List.mem_flatten.mpr ⟨b, hb, heb⟩

/-! ## Sense ranks: the map machinery assigns 1..N (C7) -/

theorem foldl_comp_eq_mem {σ β γ : Type _} (g : σ → γ) (f : σ → β → σ) :
    ∀ l : List β, (∀ (s : σ) (b : β), b ∈ l → g (f s b) = g s) →
      ∀ s : σ, g (l.foldl f s) = g s
  | [], _, _ => rfl
  | b :: l, h, s => by
    rw [List.foldl_cons,
      foldl_comp_eq_mem g f l (fun s2 b2 hb => h s2 b2 (List.mem_cons_of_mem _ hb)) (f s b),
      h s b (List.mem_cons_self _ _)]

theorem strToNat_append (s : Str) (c : Char) :
    strToNat (s ++ [c]) = 10 * strToNat s + (c.toNat - 48) := by
  unfold strToNat
  rw [List.foldl_append]
  rfl

theorem toNat_ofNat_digit (d : Nat) (h : d < 10) :
    (Char.ofNat (48 + d)).toNat = 48 + d := by
  interval_cases d <;> decide

theorem strToNat_natToStrAux :
    ∀ fuel n : Nat, n < fuel → strToNat (natToStrAux fuel n) = n := by
  intro fuel
  induction fuel with
  | zero =>
    intro n h
    omega
  | succ fuel ih =>
    intro n h
    unfold natToStrAux
    by_cases h10 : n < 10
    · rw [if_pos h10]
      unfold strToNat
      rw [List.foldl_cons, List.foldl_nil, toNat_ofNat_digit n h10]
      omega
    · rw [if_neg h10]
      have hlt : n / 10 < fuel := by
        have h1 : n / 10 < n := Nat.div_lt_self (by omega) (by omega)
        omega
      rw [strToNat_append, ih (n / 10) hlt,
        toNat_ofNat_digit (n % 10) (Nat.mod_lt _ (by omega))]
      omega

theorem strToNat_natToStr (n : Nat) : strToNat (natToStr n) = n :=
  strToNat_natToStrAux (n + 1) n (by omega)

theorem zip_numerals_roundtrip {β : Type _} :
    ∀ (l : List Nat) (l2 : List β),
      ((l.map natToStr).zip l2).map (fun p => (strToNat p.1, p.2)) = l.zip l2
  | [], _ => rfl
  | _ :: _, [] => rfl
  | a :: l, b :: l2 => by
    simp [zip_numerals_roundtrip l l2, strToNat_natToStr]

theorem senseRankPairs_eq (senses : List Sense) :
    senseRankPairs senses = (List.range' 1 senses.length).zip senses := by
  unfold senseRankPairs cypherRange
  rw [show senses.length + 1 - 1 = senses.length by omega]
  exact zip_numerals_roundtrip _ _

theorem senseRankPairs_fst_nodup (senses : List Sense) :
    ((senseRankPairs senses).map Prod.fst).Nodup := by
  rw [senseRankPairs_eq, List.map_fst_zip _ _ (by simp)]
  exact List.nodup_range' _ _

theorem senseNodes_mergeSenseRow (q rank : Nat) (sn : Sense) (t : GraphState) :
    (mergeSenseRow q t rank sn).senseNodes =
      upsert (senseKeyP q rank) ⟨q, rank, sn.pos, sn.field, sn.misc, sn.s_inf, sn.dial⟩
        t.senseNodes := by
  simp only [mergeSenseRow]
  split
  · rw [senseNodes_foldDefineKanji, senseNodes_senseRowGloss]
  · rw [senseNodes_senseRowStagr, senseNodes_foldDefineKanji, senseNodes_senseRowGloss]

theorem sensesFor_upsert_ne {q : Nat} {nd : SenseNode} (hne : nd.ent_seq ≠ q)
    (p : SenseNode → Bool) (l : List SenseNode) :
    (upsert p nd l).filter (fun sn => sn.ent_seq == q) =
      l.filter (fun sn => sn.ent_seq == q) := by
  unfold upsert
  split
  · rfl
  · rw [List.filter_append]
    simp [hne]

theorem sensesFor_mergeSenseRow_ne {q q2 : Nat} (hne : q2 ≠ q) (rank : Nat) (sn : Sense)
    (t : GraphState) : sensesFor (mergeSenseRow q2 t rank sn) q = sensesFor t q := by
  unfold sensesFor
  rw [senseNodes_mergeSenseRow]
  exact sensesFor_upsert_ne hne _ _

theorem sensesFor_mergeSensesForEntry_ne {q : Nat} {e : Entry} (hne : e.ent_seq ≠ q)
    (t : GraphState) : sensesFor (mergeSensesForEntry t e) q = sensesFor t q := by
  unfold mergeSensesForEntry
  split
  · exact foldl_comp_eq (fun u => sensesFor u q) _
      (fun u (p : Nat × Sense) => sensesFor_mergeSenseRow_ne hne p.1 p.2 u) _ t
  · rfl

theorem sensesFor_mergeEntriesT (q : Nat) (s : GraphState) (es : List Entry) :
    sensesFor (merge_and_return_entries s es) q = sensesFor s q :=
  comp_eq_mergeEntriesT (fun t => sensesFor t q) (fun _ _ => rfl) s es

theorem sensesFor_mergeKanjiT (q : Nat) (s : GraphState) (es : List Entry) :
    sensesFor (merge_and_return_kanji_for_entries s es) q = sensesFor s q :=
  comp_eq_mergeKanjiT (fun t => sensesFor t q) (fun _ _ => rfl) s es

theorem sensesFor_mergeReadingsT (q : Nat) (s : GraphState) (es : List Entry) :
    sensesFor (merge_and_return_readings_for_entries s es) q = sensesFor s q :=
  comp_eq_mergeReadingsT (fun t => sensesFor t q) (fun _ _ => rfl) (fun _ _ => rfl) s es

theorem hasSenseB_false_of_sensesFor_nil {t : GraphState} {q : Nat}
    (h : sensesFor t q = []) (r : Nat) : hasSenseB t q r = false := by
  by_contra hc
  rw [Bool.not_eq_false] at hc
  unfold hasSenseB at hc
  obtain ⟨sn, hmem, hkey⟩ := List.any_eq_true.mp hc
  have hk2 : sn.ent_seq = q := by
    simp [senseKeyP] at hkey
    exact hkey.1
  have h1 : sn ∈ sensesFor t q := by
    unfold sensesFor
    rw [List.mem_filter]
    exact ⟨hmem, by simp [hk2]⟩
  rw [h] at h1
  exact absurd h1 (List.not_mem_nil sn)

theorem sensesFor_inner_fold (q : Nat) :
    ∀ (ps : List (Nat × Sense)) (t : GraphState),
      (∀ p ∈ ps, hasSenseB t q p.1 = false) →
      ((ps.map Prod.fst).Nodup) →
      sensesFor (ps.foldl (fun u p => mergeSenseRow q u p.1 p.2) t) q =
        sensesFor t q ++ ps.map (senseNodeOf q)
  | [], t, _, _ => by simp
  | p :: ps, t, hex, hnd => by
    rw [List.map_cons, List.nodup_cons] at hnd
    have h0 : t.senseNodes.any (senseKeyP q p.1) = false := hex p (List.mem_cons_self _ _)
    have hup : (mergeSenseRow q t p.1 p.2).senseNodes =
        t.senseNodes ++ [senseNodeOf q p] := by
      rw [senseNodes_mergeSenseRow]
      unfold upsert senseNodeOf
      rw [if_neg (by simp [h0])]
    have hex2 : ∀ p2 ∈ ps, hasSenseB (mergeSenseRow q t p.1 p.2) q p2.1 = false := by
      intro p2 hp2
      have h1 : t.senseNodes.any (senseKeyP q p2.1) = false :=
        hex p2 (List.mem_cons_of_mem _ hp2)
      have hpne : ¬(p.1 = p2.1) := by
        intro hcontra
        exact hnd.1 (hcontra ▸ List.mem_map_of_mem Prod.fst hp2)
      unfold hasSenseB
      rw [hup]
      simp only [List.any_append, h1, Bool.false_or]
      simp [senseKeyP, senseNodeOf, hpne]
    have hsf : sensesFor (mergeSenseRow q t p.1 p.2) q =
        sensesFor t q ++ [senseNodeOf q p] := by
      unfold sensesFor
      rw [hup, List.filter_append]
      congr 1
      simp [senseNodeOf]
    rw [List.foldl_cons, sensesFor_inner_fold q ps _ hex2 hnd.2, hsf]
    simp

theorem mergeSensesForEntry_of_entry (t : GraphState) (e : Entry)
    (h : hasEntryB t e.ent_seq = true) :
    mergeSensesForEntry t e =
      (senseRankPairs e.sense).foldl (fun st p => mergeSenseRow e.ent_seq st p.1 p.2) t := by
  unfold mergeSensesForEntry
  rw [if_pos h]

theorem sensesFor_sensesT (l1 l2 : List Entry) (e : Entry) (s : GraphState)
    (h1 : ∀ e2 ∈ l1, e2.ent_seq ≠ e.ent_seq) (h2 : ∀ e2 ∈ l2, e2.ent_seq ≠ e.ent_seq)
    (hent : hasEntryB s e.ent_seq = true)
    (hempty : sensesFor s e.ent_seq = []) :
    sensesFor (merge_and_return_senses_for_entries s (l1 ++ e :: l2)) e.ent_seq =
      (senseRankPairs e.sense).map (senseNodeOf e.ent_seq) := by
  unfold merge_and_return_senses_for_entries
  rw [List.foldl_append, List.foldl_cons]
  have hsf1 : sensesFor (l1.foldl mergeSensesForEntry s) e.ent_seq =
      sensesFor s e.ent_seq :=
    foldl_comp_eq_mem (fun u => sensesFor u e.ent_seq) _ l1
      (fun u e2 he2 => sensesFor_mergeSensesForEntry_ne (h1 e2 he2) u) s
  have hent1 : hasEntryB (l1.foldl mergeSensesForEntry s) e.ent_seq = true :=
    foldl_pres _ (fun u => hasEntryB u e.ent_seq = true)
      (fun u e2 h => (subState_mergeSensesForEntry u e2).1 _ h) l1 s hent
  have hself : sensesFor (mergeSensesForEntry (l1.foldl mergeSensesForEntry s) e)
      e.ent_seq = (senseRankPairs e.sense).map (senseNodeOf e.ent_seq) := by
    rw [mergeSensesForEntry_of_entry _ e hent1]
    rw [sensesFor_inner_fold e.ent_seq (senseRankPairs e.sense) _
      (fun p _ => hasSenseB_false_of_sensesFor_nil (hsf1.trans hempty) p.1)
      (senseRankPairs_fst_nodup e.sense)]
    rw [hsf1, hempty]
    rfl
  exact (foldl_comp_eq_mem (fun u => sensesFor u e.ent_seq) _ l2
    (fun u e2 he2 => sensesFor_mergeSensesForEntry_ne (h2 e2 he2) u) _).trans hself

theorem sensesFor_loadBatch (l1 l2 : List Entry) (e : Entry) (s : GraphState)
    (h1 : ∀ e2 ∈ l1, e2.ent_seq ≠ e.ent_seq) (h2 : ∀ e2 ∈ l2, e2.ent_seq ≠ e.ent_seq)
    (hempty : sensesFor s e.ent_seq = []) :
    sensesFor (loadBatch s (l1 ++ e :: l2)) e.ent_seq =
      (senseRankPairs e.sense).map (senseNodeOf e.ent_seq) := by
  unfold loadBatch
  refine sensesFor_sensesT l1 l2 e _ h1 h2 ?_ ?_
  · refine ((subState_mergeKanjiT _ _).trans (subState_mergeReadingsT _ _)).1 _ ?_
    exact hasEntry_after_entriesT (by simp) s
  · rw [sensesFor_mergeReadingsT, sensesFor_mergeKanjiT, sensesFor_mergeEntriesT]
    exact hempty

theorem sensesFor_loadBatch_ne {q : Nat} (b : List Entry) (s : GraphState)
    (h : ∀ e2 ∈ b, e2.ent_seq ≠ q) :
    sensesFor (loadBatch s b) q = sensesFor s q := by
  unfold loadBatch
  have hstep : sensesFor (merge_and_return_senses_for_entries
      (merge_and_return_readings_for_entries
        (merge_and_return_kanji_for_entries (merge_and_return_entries s b) b) b) b) q =
      sensesFor (merge_and_return_readings_for_entries
        (merge_and_return_kanji_for_entries (merge_and_return_entries s b) b) b) q :=
    foldl_comp_eq_mem (fun u => sensesFor u q) _ b
      (fun u e2 he2 => sensesFor_mergeSensesForEntry_ne (h e2 he2) u) _
  rw [hstep, sensesFor_mergeReadingsT, sensesFor_mergeKanjiT, sensesFor_mergeEntriesT]

theorem sensesFor_runPipeline {n : Nat} {corpus : List Entry} {e : Entry}
    (hn : 0 < n) (he : e ∈ corpus) (hnd : (corpus.map Entry.ent_seq).Nodup) :
    sensesFor (runPipeline n corpus emptyGraph) e.ent_seq =
      (senseRankPairs e.sense).map (senseNodeOf e.ent_seq) := by
  obtain ⟨m, rfl⟩ : ∃ m, n = m + 1 := ⟨n - 1, by omega⟩
  have hflat : (batchesOf corpus (m + 1)).flatten = corpus := grouper_join m corpus
  have hmem : e ∈ (batchesOf corpus (m + 1)).flatten := by
    rw [hflat]
    exact he
  obtain ⟨b, hb, heb⟩ := List.mem_flatten.mp hmem
  obtain ⟨B1, B2, hB⟩ := List.append_of_mem hb
  obtain ⟨p1, p2, hp⟩ := List.append_of_mem heb
  have hcorpus : corpus = (B1.flatten ++ p1) ++ e :: (p2 ++ B2.flatten) := by
    rw [← hflat, hB, hp]
    simp
  rw [hcorpus, List.map_append, List.map_cons] at hnd
  have hdisj := List.disjoint_of_nodup_append hnd
  have hndr := hnd.of_append_right
  have hX : ∀ e2 ∈ B1.flatten ++ p1, e2.ent_seq ≠ e.ent_seq := by
    intro e2 he2 hcon
    exact hdisj (List.mem_map_of_mem _ he2)
      (by rw [hcon]; exact List.mem_cons_self _ _)
  have hY : ∀ e2 ∈ p2 ++ B2.flatten, e2.ent_seq ≠ e.ent_seq := by
    intro e2 he2 hcon
    rw [List.nodup_cons] at hndr
    exact hndr.1 (hcon ▸ List.mem_map_of_mem _ he2)
  unfold runPipeline
  rw [hB, List.foldl_append, List.foldl_cons]
  have hsf1 : sensesFor (B1.foldl loadBatch emptyGraph) e.ent_seq =
      sensesFor emptyGraph e.ent_seq :=
    foldl_comp_eq_mem (fun u => sensesFor u e.ent_seq) _ B1
      (fun u b2 hb2 => sensesFor_loadBatch_ne b2 u
        (fun e2 he2 => hX e2 (List.mem_append_left _ (List.mem_flatten.mpr ⟨b2, hb2, he2⟩))))
      emptyGraph
  have hsf2 : sensesFor (loadBatch (B1.foldl loadBatch emptyGraph) b) e.ent_seq =
      (senseRankPairs e.sense).map (senseNodeOf e.ent_seq) := by
    rw [hp]
    refine sensesFor_loadBatch p1 p2 e _ ?_ ?_ ?_
    · intro e2 he2
      exact hX e2 (List.mem_append_right _ he2)
    · intro e2 he2
      exact hY e2 (List.mem_append_left _ he2)
    · rw [hsf1]
      rfl
  exact (foldl_comp_eq_mem (fun u => sensesFor u e.ent_seq) _ B2
    (fun u b2 hb2 => sensesFor_loadBatch_ne b2 u
      (fun e2 he2 => hY e2 (List.mem_append_right _ (List.mem_flatten.mpr ⟨b2, hb2, he2⟩))))
    _).trans hsf2

/-- C7: for every entry of a corpus with pairwise distinct `ent_seq`
loaded in batches of any positive size, the sense ranks recorded for that
entry equal exactly the contiguous sequence `1..N` where `N` is the number
of its senses, in document order: the map machinery of
`merge_and_return_senses_for_entries` keys `toStringList(range(1,
size(entry.sense)))` read back with `toInteger` produce exactly the ranks
`1..N`, and each `MERGE (e)-[rel:HAS_SENSE {rank: rank}]->(s:Sense)`
records its rank once. -/
theorem c7_sense_ranks_contiguous {n : Nat} {corpus : List Entry} {e : Entry}
    (hn : 0 < n) (he : e ∈ corpus) (hnd : (corpus.map Entry.ent_seq).Nodup) :
    ranksOf (runPipeline n corpus emptyGraph) e.ent_seq =
      List.range' 1 e.sense.length := by
  have h := sensesFor_runPipeline hn he hnd
  have hr : ranksOf (runPipeline n corpus emptyGraph) e.ent_seq =
      (sensesFor (runPipeline n corpus emptyGraph) e.ent_seq).map (fun sn => sn.rank) := rfl
  rw [hr, h, List.map_map, senseRankPairs_eq]
  have hfun : ((fun sn : SenseNode => sn.rank) ∘ senseNodeOf e.ent_seq) =
      (Prod.fst : Nat × Sense → Nat) := by
    funext p
    rfl
  rw [hfun, List.map_fst_zip _ _ (by simp)]

/-- Witness for C7 at the demonstration corpus, batch size 2. -/
theorem c7_sense_ranks_contiguous_witness :
    0 < 2 ∧ demoE1 ∈ demoCorpus ∧ (demoCorpus.map Entry.ent_seq).Nodup ∧
      ranksOf (runPipeline 2 demoCorpus emptyGraph) demoE1.ent_seq =
        List.range' 1 demoE1.sense.length :=
  ⟨by decide, by simp [demoCorpus], by decide,
    c7_sense_ranks_contiguous (by decide) (by simp [demoCorpus]) (by decide)⟩

/-! ## Idempotence: every merge is a no-op on a state that already holds
its record (C8 machinery) -/

theorem mergeEntryRow_fix (S : GraphState) (e : Entry)
    (h : hasEntryB S e.ent_seq = true) : mergeEntryRow S e = S := by
  unfold mergeEntryRow
  rw [upsert_of_any h]

theorem mergeKanjiRow_fix (q : Nat) (S : GraphState) (k : Kanji)
    (h : hasKanjiB S q k.keb = true) : mergeKanjiRow q S k = S := by
  simp only [mergeKanjiRow]
  rw [upsert_of_any h]

theorem mergeKanjiForEntry_fix (S : GraphState) (e : Entry)
    (h : ∀ k ∈ e.k_ele, hasKanjiB S e.ent_seq k.keb = true) :
    mergeKanjiForEntry S e = S := by
  unfold mergeKanjiForEntry
  split
  · exact foldl_fix _ S _ (fun k hk => mergeKanjiRow_fix _ _ _ (h k hk))
  · rfl

theorem mergeIsReadRow_fix (q : Nat) (reb : Str) (S : GraphState) (restr : Str)
    (h : hasKanjiB S q restr = true → hasIsReadB S q restr reb = true) :
    mergeIsReadRow q reb S restr = S := by
  unfold mergeIsReadRow
  split
  · next hk => rw [upsert_of_any (h hk)]
  · rfl

theorem mergeReadingRow_fix (q : Nat) (S : GraphState) (r : Reading)
    (hr : hasReadingB S q r.reb = true)
    (hir : ∀ restr ∈ r.re_restr,
      hasKanjiB S q restr = true → hasIsReadB S q restr r.reb = true) :
    mergeReadingRow q S r = S := by
  simp only [mergeReadingRow]
  rw [upsert_of_any hr]
  show r.re_restr.foldl (mergeIsReadRow q r.reb) S = S
  exact foldl_fix _ S _ (fun restr hm => mergeIsReadRow_fix q r.reb S restr (hir restr hm))

theorem mergeReadingsForEntry_fix (S : GraphState) (e : Entry)
    (hr : ∀ r ∈ e.r_ele, hasReadingB S e.ent_seq r.reb = true)
    (hir : ∀ r ∈ e.r_ele, ∀ restr ∈ r.re_restr,
      hasKanjiB S e.ent_seq restr = true → hasIsReadB S e.ent_seq restr r.reb = true) :
    mergeReadingsForEntry S e = S := by
  unfold mergeReadingsForEntry
  split
  · exact foldl_fix _ S _ (fun r hm => mergeReadingRow_fix _ S r (hr r hm) (hir r hm))
  · rfl

theorem defineKanjiRow_fix (q rank : Nat) (S : GraphState) (keb : Str)
    (h : hasKanjiB S q keb = true → hasKanjiDefB S q keb rank = true) :
    defineKanjiRow q rank S keb = S := by
  unfold defineKanjiRow
  split
  · next hk => rw [upsert_of_any (h hk)]
  · rfl

theorem defineReadingRow_fix (q rank : Nat) (S : GraphState) (reb : Str)
    (h : hasReadingB S q reb = true → hasReadingDefB S q reb rank = true) :
    defineReadingRow q rank S reb = S := by
  unfold defineReadingRow
  split
  · next hk => rw [upsert_of_any (h hk)]
  · rfl

theorem mergeLsourceRow_fix (q rank : Nat) (S : GraphState) (ls : Lsource)
    (h1 : hasLangB S ls.lang.name = true)
    (h2 : hasSourcedFromB S q rank ls.lang.name = true) :
    mergeLsourceRow q rank S ls = S := by
  simp only [mergeLsourceRow]
  rw [upsert_of_any h1]
  show ({ S with sourcedFrom := upsert (sourcedFromKeyP q rank ls.lang.name) ⟨q, rank, ls.lang.name, ls.phrase, ls.isPartial, ls.wasei⟩ S.sourcedFrom } : GraphState) = S
  rw [upsert_of_any h2]

theorem mergeExampleRow_fix (q rank : Nat) (S : GraphState) (ex : Example)
    (h1 : hasSentenceB S ex.sentence.exsrc_type ex.sentence.ex_srce = true)
    (h2 : hasUsedInB S q rank ex.sentence.exsrc_type ex.sentence.ex_srce = true) :
    mergeExampleRow q rank S ex = S := by
  simp only [mergeExampleRow]
  rw [upsert_of_any h1]
  show ({ S with usedIn := upsert (usedInKeyP q rank ex.sentence.exsrc_type ex.sentence.ex_srce) ⟨q, rank, ex.sentence.exsrc_type, ex.sentence.ex_srce, ex.ex_text⟩ S.usedIn } : GraphState) = S
  rw [upsert_of_any h2]

theorem senseRowTail_fix (q rank : Nat) (sn : Sense) (S : GraphState)
    (hL : ∀ ls ∈ sn.lsource,
      hasLangB S ls.lang.name = true ∧ hasSourcedFromB S q rank ls.lang.name = true)
    (hE : ∀ ex ∈ sn.example_,
      hasSentenceB S ex.sentence.exsrc_type ex.sentence.ex_srce = true ∧
        hasUsedInB S q rank ex.sentence.exsrc_type ex.sentence.ex_srce = true) :
    senseRowTail q rank sn S = S := by
  unfold senseRowTail
  rw [foldl_fix _ S _
    (fun ls hm => mergeLsourceRow_fix q rank S ls (hL ls hm).1 (hL ls hm).2)]
  exact foldl_fix _ S _
    (fun ex hm => mergeExampleRow_fix q rank S ex (hE ex hm).1 (hE ex hm).2)

theorem senseRowGloss_fix (q rank : Nat) (og : Option Gloss) (S : GraphState)
    (h : ∀ g0, og = some g0 → hasGlossB S q rank = true) :
    senseRowGloss q rank og S = S := by
  cases og with
  | none => rfl
  | some g0 =>
    simp only [senseRowGloss]
    rw [upsert_of_any (h g0 rfl)]

theorem senseRowStagr_fix (q rank : Nat) (sn : Sense) (S : GraphState)
    (hrd : ∀ reb ∈ sn.stagr, hasReadingB S q reb = true → hasReadingDefB S q reb rank = true)
    (htail : (sn.stagr = [] ∨ ∃ reb ∈ sn.stagr, hasReadingB S q reb = true) →
      senseRowTail q rank sn S = S) :
    senseRowStagr q rank sn S = S := by
  simp only [senseRowStagr]
  rw [foldl_fix _ S _ (fun reb hm => defineReadingRow_fix q rank S reb (hrd reb hm))]
  split
  · rfl
  next hcond =>
    refine htail ?_
    by_cases he : sn.stagr.isEmpty = true
    · exact Or.inl (by simpa using he)
    · right
      by_cases ha : sn.stagr.any (fun reb => hasReadingB S q reb) = true
      · simpa using List.any_eq_true.mp ha
      · exfalso
        apply hcond
        rw [Bool.not_eq_true] at he ha
        simp [he, ha]

theorem mergeSenseRow_fix (q rank : Nat) (sn : Sense) (S : GraphState)
    (hs : hasSenseB S q rank = true)
    (hg : ∀ g0, sn.gloss = some g0 → hasGlossB S q rank = true)
    (hkd : ∀ keb ∈ sn.stagk, hasKanjiB S q keb = true → hasKanjiDefB S q keb rank = true)
    (hrd : (sn.stagk = [] ∨ ∃ keb ∈ sn.stagk, hasKanjiB S q keb = true) →
      ∀ reb ∈ sn.stagr, hasReadingB S q reb = true → hasReadingDefB S q reb rank = true)
    (htail : (sn.stagk = [] ∨ ∃ keb ∈ sn.stagk, hasKanjiB S q keb = true) →
      (sn.stagr = [] ∨ ∃ reb ∈ sn.stagr, hasReadingB S q reb = true) →
      senseRowTail q rank sn S = S) :
    mergeSenseRow q S rank sn = S := by
  simp only [mergeSenseRow]
  have e1 : ({ S with senseNodes := upsert (senseKeyP q rank) ⟨q, rank, sn.pos, sn.field, sn.misc, sn.s_inf, sn.dial⟩ S.senseNodes } : GraphState) = S := by
    rw [upsert_of_any hs]
  rw [e1, senseRowGloss_fix q rank sn.gloss S hg,
    foldl_fix _ S _ (fun keb hm => defineKanjiRow_fix q rank S keb (hkd keb hm))]
  split
  · rfl
  next hcond =>
    have hsk : sn.stagk = [] ∨ ∃ keb ∈ sn.stagk, hasKanjiB S q keb = true := by
      by_cases he : sn.stagk.isEmpty = true
      · exact Or.inl (by simpa using he)
      · right
        by_cases ha : sn.stagk.any (fun keb => hasKanjiB S q keb) = true
        · simpa using List.any_eq_true.mp ha
        · exfalso
          apply hcond
          rw [Bool.not_eq_true] at he ha
          simp [he, ha]
    exact senseRowStagr_fix q rank sn S (hrd hsk) (htail hsk)

theorem mergeSensesForEntry_fix (S : GraphState) (e : Entry)
    (hrow : ∀ p ∈ senseRankPairs e.sense, mergeSenseRow e.ent_seq S p.1 p.2 = S) :
    mergeSensesForEntry S e = S := by
  unfold mergeSensesForEntry
  split
  · exact foldl_fix _ S _ hrow
  · rfl

theorem loadBatch_fix (S : GraphState) (b : List Entry)
    (hfix : ∀ e ∈ b, mergeEntryRow S e = S ∧ mergeKanjiForEntry S e = S ∧
      mergeReadingsForEntry S e = S ∧ mergeSensesForEntry S e = S) :
    loadBatch S b = S := by
  unfold loadBatch merge_and_return_entries merge_and_return_kanji_for_entries
    merge_and_return_readings_for_entries merge_and_return_senses_for_entries
  rw [foldl_fix mergeEntryRow S b (fun e he => (hfix e he).1),
    foldl_fix mergeKanjiForEntry S b (fun e he => (hfix e he).2.1),
    foldl_fix mergeReadingsForEntry S b (fun e he => (hfix e he).2.2.1)]
  exact foldl_fix mergeSensesForEntry S b (fun e he => (hfix e he).2.2.2)

theorem runPipeline_fix (n : Nat) (C : List Entry) (S : GraphState)
    (h : ∀ b ∈ batchesOf C n, loadBatch S b = S) : runPipeline n C S = S :=
  foldl_fix loadBatch S _ h

/-- Under a duplicate-free corpus, a kanji of the final store belongs to
the entry that owns its `ent_seq`. -/
theorem kanji_present_only_of_corpus {n : Nat} {corpus : List Entry} {e : Entry}
    (hnd : (corpus.map Entry.ent_seq).Nodup) (he : e ∈ corpus) {keb : Str}
    (h : hasKanjiB (runPipeline n corpus emptyGraph) e.ent_seq keb = true) :
    keb ∈ entryKebs e := by
  obtain ⟨e2, he2, hq, hkeb⟩ := kanji_sound_runPipeline h
  rwa [List.inj_on_of_nodup_map hnd he2 he hq] at hkeb

/-- Under a duplicate-free corpus, a reading of the final store belongs to
the entry that owns its `ent_seq`. -/
theorem reading_present_only_of_corpus {n : Nat} {corpus : List Entry} {e : Entry}
    (hnd : (corpus.map Entry.ent_seq).Nodup) (he : e ∈ corpus) {reb : Str}
    (h : hasReadingB (runPipeline n corpus emptyGraph) e.ent_seq reb = true) :
    reb ∈ entryRebs e := by
  obtain ⟨e2, he2, hq, hreb⟩ := reading_sound_runPipeline h
  rwa [List.inj_on_of_nodup_map hnd he2 he hq] at hreb

/-- At the final store of a run over a duplicate-free corpus, every merge
row of every entry of the corpus is a no-op. -/
theorem entry_rows_fix_at_final {n : Nat} {corpus : List Entry} (hn : 0 < n)
    (hnd : (corpus.map Entry.ent_seq).Nodup) {e : Entry} (he : e ∈ corpus) :
    mergeEntryRow (runPipeline n corpus emptyGraph) e = runPipeline n corpus emptyGraph ∧
    mergeKanjiForEntry (runPipeline n corpus emptyGraph) e = runPipeline n corpus emptyGraph ∧
    mergeReadingsForEntry (runPipeline n corpus emptyGraph) e = runPipeline n corpus emptyGraph ∧
    mergeSensesForEntry (runPipeline n corpus emptyGraph) e = runPipeline n corpus emptyGraph := by
  refine ⟨?_, ?_, ?_, ?_⟩
  · refine mergeEntryRow_fix _ e ?_
    exact pres_runPipeline (fun t => hasEntryB t e.ent_seq = true) hn he
      (fun t u hsub h => hsub.1 _ h)
      (fun b t heb => hasEntry_after_loadBatch heb t) emptyGraph
  · refine mergeKanjiForEntry_fix _ e ?_
    intro k hk
    exact pres_runPipeline (fun t => hasKanjiB t e.ent_seq k.keb = true) hn he
      (fun t u hsub h => hsub.2.1 _ h)
      (fun b t heb => hasKanji_after_loadBatch heb hk t) emptyGraph
  · refine mergeReadingsForEntry_fix _ e ?_ ?_
    · intro r hr
      exact pres_runPipeline (fun t => hasReadingB t e.ent_seq r.reb = true) hn he
        (fun t u hsub h => hsub.2.2.1 _ h)
        (fun b t heb => hasReading_after_loadBatch heb hr t) emptyGraph
    · intro r hr restr hre hkan
      have hkeb : restr ∈ entryKebs e := kanji_present_only_of_corpus hnd he hkan
      exact pres_runPipeline (fun t => hasIsReadB t e.ent_seq restr r.reb = true) hn he
        (fun t u hsub h => hsub.2.2.2.1 _ h)
        (fun b t heb => hasIsRead_after_loadBatch heb hr hre hkeb t) emptyGraph
  · refine mergeSensesForEntry_fix _ e ?_
    intro p hpair
    refine mergeSenseRow_fix e.ent_seq p.1 p.2 _ ?_ ?_ ?_ ?_ ?_
    · exact pres_runPipeline (fun t => hasSenseB t e.ent_seq p.1 = true) hn he
        (fun t u hsub h => hsub.2.2.2.2.1 _ h)
        (fun b t heb => hasSense_after_loadBatch heb hpair t) emptyGraph
    · intro g0 hg0
      exact pres_runPipeline (fun t => hasGlossB t e.ent_seq p.1 = true) hn he
        (fun t u hsub h => hsub.2.2.2.2.2.1 _ h)
        (fun b t heb => hasGloss_after_loadBatch heb hpair hg0 t) emptyGraph
    · intro keb hkm hkan
      have hkeb : keb ∈ entryKebs e := kanji_present_only_of_corpus hnd he hkan
      exact pres_runPipeline (fun t => hasKanjiDefB t e.ent_seq keb p.1 = true) hn he
        (fun t u hsub h => hsub.2.2.2.2.2.2.1 _ h)
        (fun b t heb => hasKanjiDef_after_loadBatch heb hpair hkm hkeb t) emptyGraph
    · intro hskS reb hrm hread
      have hreb : reb ∈ entryRebs e := reading_present_only_of_corpus hnd he hread
      have hsk : p.2.stagk = [] ∨ ∃ keb ∈ p.2.stagk, keb ∈ entryKebs e := by
        rcases hskS with h | ⟨keb, hm, hkan⟩
        · exact Or.inl h
        · exact Or.inr ⟨keb, hm, kanji_present_only_of_corpus hnd he hkan⟩
      exact pres_runPipeline (fun t => hasReadingDefB t e.ent_seq reb p.1 = true) hn he
        (fun t u hsub h => hsub.2.2.2.2.2.2.2.1 _ h)
        (fun b t heb => hasReadingDef_after_loadBatch heb hpair hrm hreb hsk t) emptyGraph
    · intro hskS hsrS
      have hsk : p.2.stagk = [] ∨ ∃ keb ∈ p.2.stagk, keb ∈ entryKebs e := by
        rcases hskS with h | ⟨keb, hm, hkan⟩
        · exact Or.inl h
        · exact Or.inr ⟨keb, hm, kanji_present_only_of_corpus hnd he hkan⟩
      have hsr : p.2.stagr = [] ∨ ∃ reb ∈ p.2.stagr, reb ∈ entryRebs e := by
        rcases hsrS with h | ⟨reb, hm, hread⟩
        · exact Or.inl h
        · exact Or.inr ⟨reb, hm, reading_present_only_of_corpus hnd he hread⟩
      refine senseRowTail_fix e.ent_seq p.1 p.2 _ ?_ ?_
      · intro ls hls
        constructor
        · exact pres_runPipeline (fun t => hasLangB t ls.lang.name = true) hn he
            (fun t u hsub h => hsub.2.2.2.2.2.2.2.2.1 _ h)
            (fun b t heb => tail_target_after_loadBatch heb hpair
              (fun u => hasLangB u ls.lang.name)
              (fun t2 u2 hsub h => hsub.2.2.2.2.2.2.2.2.1 _ h)
              (fun t2 => hasLang_after_tail e.ent_seq p.1 p.2 ls t2 hls) hsk hsr t)
            emptyGraph
        · exact pres_runPipeline
            (fun t => hasSourcedFromB t e.ent_seq p.1 ls.lang.name = true) hn he
            (fun t u hsub h => hsub.2.2.2.2.2.2.2.2.2.1 _ h)
            (fun b t heb => tail_target_after_loadBatch heb hpair
              (fun u => hasSourcedFromB u e.ent_seq p.1 ls.lang.name)
              (fun t2 u2 hsub h => hsub.2.2.2.2.2.2.2.2.2.1 _ h)
              (fun t2 => hasSourcedFrom_after_tail e.ent_seq p.1 p.2 ls t2 hls) hsk hsr t)
            emptyGraph
      · intro ex hex
        constructor
        · exact pres_runPipeline
            (fun t => hasSentenceB t ex.sentence.exsrc_type ex.sentence.ex_srce = true) hn he
            (fun t u hsub h => hsub.2.2.2.2.2.2.2.2.2.2.1 _ h)
            (fun b t heb => tail_target_after_loadBatch heb hpair
              (fun u => hasSentenceB u ex.sentence.exsrc_type ex.sentence.ex_srce)
              (fun t2 u2 hsub h => hsub.2.2.2.2.2.2.2.2.2.2.1 _ h)
              (fun t2 => hasSentence_after_tail e.ent_seq p.1 p.2 ex t2 hex) hsk hsr t)
            emptyGraph
        · exact pres_runPipeline
            (fun t => hasUsedInB t e.ent_seq p.1 ex.sentence.exsrc_type ex.sentence.ex_srce
              = true) hn he
            (fun t u hsub h => hsub.2.2.2.2.2.2.2.2.2.2.2.1 _ h)
            (fun b t heb => tail_target_after_loadBatch heb hpair
              (fun u => hasUsedInB u e.ent_seq p.1 ex.sentence.exsrc_type ex.sentence.ex_srce)
              (fun t2 u2 hsub h => hsub.2.2.2.2.2.2.2.2.2.2.2.1 _ h)
              (fun t2 => hasUsedIn_after_tail e.ent_seq p.1 p.2 ex t2 hex) hsk hsr t)
            emptyGraph

/-- A second run of the whole pipeline over the same duplicate-free corpus
leaves the store of the first run unchanged. -/
theorem runPipeline_idem (n : Nat) {corpus : List Entry}
    (hnd : (corpus.map Entry.ent_seq).Nodup) :
    runPipeline n corpus (runPipeline n corpus emptyGraph) =
      runPipeline n corpus emptyGraph := by
  rcases Nat.eq_zero_or_pos n with rfl | hn
  · simp only [runPipeline_zero]
  refine runPipeline_fix n corpus _ ?_
  intro b hb
  refine loadBatch_fix _ b ?_
  intro e heb
  have he : e ∈ corpus := by
    obtain ⟨m, rfl⟩ : ∃ m, n = m + 1 := ⟨n - 1, by omega⟩
    rw [← grouper_join m corpus]
    exact List.mem_flatten.mpr ⟨b, hb, heb⟩
  exact entry_rows_fix_at_final hn hnd he

/-- C8: running the full pipeline twice over the same corpus (pairwise
distinct `ent_seq`, any batch size) against an initially empty store
produces the same store, hence the same node and relationship counts, as
running it once: every node and relationship write is a `MERGE` on its
stable key and attributes are set only `ON CREATE`, so a repeated run
creates no duplicate record and overwrites nothing. -/
theorem c8_pipeline_idempotent {n : Nat} {corpus : List Entry}
    (hnd : (corpus.map Entry.ent_seq).Nodup) :
    runPipeline n corpus (runPipeline n corpus emptyGraph) =
        runPipeline n corpus emptyGraph ∧
      nodeCount (runPipeline n corpus (runPipeline n corpus emptyGraph)) =
        nodeCount (runPipeline n corpus emptyGraph) ∧
      relCount (runPipeline n corpus (runPipeline n corpus emptyGraph)) =
        relCount (runPipeline n corpus emptyGraph) := by
  have h := runPipeline_idem n hnd
  exact ⟨h, by rw [h], by rw [h]⟩

/-- Witness for C8: the demonstration corpus, loaded twice in batches of
two. -/
theorem c8_pipeline_idempotent_witness :
    (demoCorpus.map Entry.ent_seq).Nodup ∧
      runPipeline 2 demoCorpus (runPipeline 2 demoCorpus emptyGraph) =
        runPipeline 2 demoCorpus emptyGraph ∧
      nodeCount (runPipeline 2 demoCorpus (runPipeline 2 demoCorpus emptyGraph)) =
        nodeCount (runPipeline 2 demoCorpus emptyGraph) ∧
      relCount (runPipeline 2 demoCorpus (runPipeline 2 demoCorpus emptyGraph)) =
        relCount (runPipeline 2 demoCorpus emptyGraph) :=
  ⟨by decide, c8_pipeline_idempotent (by decide)⟩

end N4J
